import Mathlib

/-!
Verification development for the md2hwpx Markdown-to-HWPX converter
(src/md2hwpx/MarkdownToHwpx.py).  Python structures are embedded shallowly:
XML nodes become records keeping the attributes the code reads or writes,
dictionaries become association lists, ids become naturals, and the mutable
converter object becomes explicit state passing.  Each definition is a direct
transcription of the function named in its doc comment.
-/

namespace MdHwpx

/-- Exception classes from exceptions.py together with the Python builtin
ValueError, which MarkdownToHwpx.py raises directly in several places. -/
inductive PyExn where
  | valueError (msg : String)
  | templateError (msg : String)
  | imageError (msg : String)
  | styleError (msg : String)
  | conversionError (msg : String)
  | securityError (msg : String)
deriving DecidableEq, Repr

/-- True when an Except result is an error carrying a StyleError. -/
def isStyleErr : Except PyExn Unit → Bool
  | .error (.styleError _) => true
  | _ => false

/-- True when an Except result is an error carrying a ValueError. -/
def isValueErr : Except PyExn Unit → Bool
  | .error (.valueError _) => true
  | _ => false

/-- The inline format flags accumulated by _process_inlines_to_elems and
consumed by _get_char_pr_id. -/
inductive Fmt where
  | BOLD
  | ITALIC
  | UNDERLINE
  | SUPERSCRIPT
  | SUBSCRIPT
  | COLOR_BLUE
deriving DecidableEq, Repr

instance : Fintype Fmt :=
  ⟨⟨{Fmt.BOLD, Fmt.ITALIC, Fmt.UNDERLINE, Fmt.SUPERSCRIPT, Fmt.SUBSCRIPT, Fmt.COLOR_BLUE}, by decide⟩,
   by intro x; cases x <;> decide⟩

/-- One hh:charPr node of the header, reduced to the attributes and child
elements _get_char_pr_id reads or mutates.  The underline field models the
hh:underline child, carrying its type, shape and color attributes. -/
structure CharPrNode where
  id : Nat
  bold : Bool
  italic : Bool
  underline : Option (String × String × String)
  textColor : String
  supscript : Bool
  subscript : Bool
deriving DecidableEq, Repr

/-- The character-property part of the converter state: the charProperties
collection of the header tree, the derivation cache and the running max id
(fields char_pr_cache and max_char_pr_id of MarkdownToHwpx). -/
structure RegistryState where
  charPrs : List CharPrNode
  cache : List ((Nat × Finset Fmt) × Nat)
  maxCharPrId : Nat
deriving DecidableEq

/-- Linear lookup in the cache association list, modelling the Python dict
lookup keyed by (str(base_id), frozenset(active_formats)).  Nat stands for
the id string; toString on Nat is injective so the keys coincide. -/
def lookupCache (c : List ((Nat × Finset Fmt) × Nat)) (k : Nat × Finset Fmt) : Option Nat :=
  match c with
  | [] => none
  | (k0, v) :: rest => if k0 = k then some v else lookupCache rest k

/-- First charPr node with the given id, as header_root.find on hh:charPr. -/
def findCharPr (l : List CharPrNode) (i : Nat) : Option CharPrNode :=
  l.find? (fun n => n.id == i)

/-- The per-format node mutations of _get_char_pr_id lines 2514-2557:
BOLD and ITALIC add the flag child, UNDERLINE sets type BOTTOM, shape SOLID,
color #000000, COLOR_BLUE sets textColor #0000FF and recolors an existing
underline, SUPERSCRIPT adds supscript removing subscript, and (only in the
elif branch) SUBSCRIPT adds subscript removing supscript. -/
def applyFormats (n0 : CharPrNode) (fmts : Finset Fmt) : CharPrNode :=
  let n1 := if Fmt.BOLD ∈ fmts then { n0 with bold := true } else n0
  let n2 := if Fmt.ITALIC ∈ fmts then { n1 with italic := true } else n1
  let n3 := if Fmt.UNDERLINE ∈ fmts then
      { n2 with underline := some ("BOTTOM", "SOLID", "#000000") } else n2
  let n4 := if Fmt.COLOR_BLUE ∈ fmts then
      let nA := { n3 with textColor := "#0000FF" }
      match nA.underline with
      | some (t, sh, _) => { nA with underline := some (t, sh, "#0000FF") }
      | none => nA
    else n3
  if Fmt.SUPERSCRIPT ∈ fmts then { n4 with subscript := false, supscript := true }
  else if Fmt.SUBSCRIPT ∈ fmts then { n4 with supscript := false, subscript := true }
  else n4

/-- Transcription of _get_char_pr_id (MarkdownToHwpx.py lines 2483-2567).
An empty format set returns the base id unchanged; otherwise the cache is
consulted; on a miss the base node (or the id-0 node) is deep-copied, given
the next fresh id, mutated per the format set, appended to charProperties
and cached.  The header_root-is-None early return cannot occur inside a
conversion and is not modelled. -/
def deriveCharPr (s : RegistryState) (baseId : Nat) (fmts : Finset Fmt) :
    Nat × RegistryState :=
  if fmts = ∅ then (baseId, s)
  else
    match lookupCache s.cache (baseId, fmts) with
    | some cid => (cid, s)
    | none =>
      match (findCharPr s.charPrs baseId).orElse (fun _ => findCharPr s.charPrs 0) with
      | none => (baseId, s)
      | some base =>
        let newId := s.maxCharPrId + 1
        let node := applyFormats { base with id := newId } fmts
        (newId,
         { charPrs := s.charPrs ++ [node],
           cache := s.cache ++ [((baseId, fmts), newId)],
           maxCharPrId := newId })

/-- Invariant maintained by the derivation cache within one conversion:
every cached id is bounded by the running max, and cached ids are pairwise
distinct. -/
def RegInv (s : RegistryState) : Prop :=
  (∀ kv ∈ s.cache, kv.2 ≤ s.maxCharPrId) ∧ s.cache.Pairwise (fun a b => a.2 ≠ b.2)

lemma lookupCache_append_self (c : List ((Nat × Finset Fmt) × Nat)) (k : Nat × Finset Fmt)
    (v : Nat) (h : lookupCache c k = none) :
    lookupCache (c ++ [(k, v)]) k = some v := by
  induction c with
  | nil => simp [lookupCache]
  | cons kv rest ih =>
    rw [List.cons_append]
    unfold lookupCache at h ⊢
    by_cases hk : kv.1 = k
    · simp [hk] at h
    · simp only [hk, if_false] at h ⊢
      exact ih h

lemma lookupCache_mem (c : List ((Nat × Finset Fmt) × Nat)) (k : Nat × Finset Fmt)
    (v : Nat) (h : lookupCache c k = some v) : (k, v) ∈ c := by
  induction c with
  | nil => simp [lookupCache] at h
  | cons kv rest ih =>
    unfold lookupCache at h
    by_cases hk : kv.1 = k
    · rw [if_pos hk] at h
      have hv : kv.2 = v := Option.some.inj h
      have : kv = (k, v) := by
        cases kv with
        | mk k0 v0 =>
          simp only at hk hv
          rw [hk, hv]
      rw [← this]
      exact List.mem_cons_self _ _
    · rw [if_neg hk] at h
      exact List.mem_cons_of_mem _ (ih h)

lemma findCharPr_append_isSome (l m : List CharPrNode) (i : Nat)
    (h : (findCharPr l i).isSome) : (findCharPr (l ++ m) i).isSome := by
  induction l with
  | nil => simp [findCharPr, List.find?] at h
  | cons x rest ih =>
    unfold findCharPr at h ⊢
    rw [List.cons_append]
    rw [List.find?] at h ⊢
    by_cases hx : (x.id == i) = true
    · simp [hx]
    · simp only [Bool.not_eq_true] at hx
      rw [hx] at h ⊢
      exact ih h

lemma orElse_findCharPr_isSome (l : List CharPrNode) (b : Nat)
    (h : (findCharPr l b).isSome ∨ (findCharPr l 0).isSome) :
    ∃ base, (findCharPr l b).orElse (fun _ => findCharPr l 0) = some base := by
  cases hfb : findCharPr l b with
  | some y => exact ⟨y, by simp [Option.orElse, hfb]⟩
  | none =>
    cases hf0 : findCharPr l 0 with
    | some y => exact ⟨y, by simp [Option.orElse, hfb, hf0]⟩
    | none => simp_all

lemma regInv_preserved (s : RegistryState) (b : Nat) (f : Finset Fmt) (h : RegInv s) :
    RegInv (deriveCharPr s b f).2 := by
  unfold deriveCharPr
  by_cases hf : f = ∅
  · simpa [hf] using h
  · simp only [hf, if_false]
    cases hcl : lookupCache s.cache (b, f) with
    | some cid => simpa using h
    | none =>
      cases hfind : (findCharPr s.charPrs b).orElse (fun _ => findCharPr s.charPrs 0) with
      | none => simpa using h
      | some base =>
        refine ⟨?_, ?_⟩
        · intro kv hkv
          rcases List.mem_append.mp hkv with hold | hnew
          · exact le_trans (h.1 kv hold) (Nat.le_succ _)
          · simp at hnew
            simp [hnew]
        · refine List.pairwise_append.mpr ⟨h.2, List.pairwise_singleton _ _, ?_⟩
          intro a ha b' hb'
          have hb2 : b' = ((b, f), s.maxCharPrId + 1) := by simpa using hb'
          rw [hb2]
          have := h.1 a ha
          simp only
          omega

/-- Claim C1.  deriveCharPr with the empty format set returns the base id
and leaves the state untouched.  For a fixed nonempty format set, a second
call with the same (baseId, activeFormats) pair returns the same id, leaves
the state of the first call untouched (a cache hit), and the two calls
together append at most one node to the charProperties collection.  Under
the cache invariant, and provided the header can resolve a base node (it
holds the base id or the id-0 fallback), two successive calls with distinct
nonempty format sets for the same base return distinct ids. -/
theorem c1_deriveCharPr_cache
    (s : RegistryState) (b : Nat) (f f2 : Finset Fmt)
    (hinv : RegInv s)
    (hres : (findCharPr s.charPrs b).isSome ∨ (findCharPr s.charPrs 0).isSome) :
    (deriveCharPr s b ∅ = (b, s)) ∧
    (f ≠ ∅ →
      (deriveCharPr (deriveCharPr s b f).2 b f).1 = (deriveCharPr s b f).1 ∧
      (deriveCharPr (deriveCharPr s b f).2 b f).2 = (deriveCharPr s b f).2 ∧
      (deriveCharPr s b f).2.charPrs.length ≤ s.charPrs.length + 1) ∧
    (f ≠ ∅ → f2 ≠ ∅ → f ≠ f2 →
      (deriveCharPr s b f).1 ≠ (deriveCharPr (deriveCharPr s b f).2 b f2).1) := by
  have hkey2 : ∀ g g2 : Finset Fmt, g ≠ g2 → ((b, g) : Nat × Finset Fmt) ≠ (b, g2) := by
    intro g g2 hne h
    exact hne (congrArg Prod.snd h)
  refine ⟨by simp [deriveCharPr], ?_, ?_⟩
  · intro hf
    unfold deriveCharPr
    simp only [hf, if_false]
    cases hcl : lookupCache s.cache (b, f) with
    | some cid => simp [hcl]
    | none =>
      cases hfind : (findCharPr s.charPrs b).orElse (fun _ => findCharPr s.charPrs 0) with
      | none => simp [hcl, hfind]
      | some base =>
        have h2 : lookupCache (s.cache ++ [((b, f), s.maxCharPrId + 1)]) (b, f)
            = some (s.maxCharPrId + 1) := lookupCache_append_self _ _ _ hcl
        simp [h2]
  · intro hf hf2 hne
    cases hcl : lookupCache s.cache (b, f) with
    | some cid =>
      have hcid : cid ≤ s.maxCharPrId := hinv.1 _ (lookupCache_mem _ _ _ hcl)
      have hEq1 : deriveCharPr s b f = (cid, s) := by
        unfold deriveCharPr
        simp only [if_neg hf, hcl]
      rw [hEq1]
      cases hcl2 : lookupCache s.cache (b, f2) with
      | some cid2 =>
        have hEq2 : deriveCharPr s b f2 = (cid2, s) := by
          unfold deriveCharPr
          simp only [if_neg hf2, hcl2]
        rw [hEq2]
        intro hcontra
        simp only at hcontra
        subst hcontra
        have hm1 := lookupCache_mem _ _ _ hcl
        have hm2 := lookupCache_mem _ _ _ hcl2
        have hsymm : Symmetric (fun a b : (Nat × Finset Fmt) × Nat => a.2 ≠ b.2) := by
          intro x y h
          exact fun he => h he.symm
        have hdiff : ((b, f), cid) ≠ ((b, f2), cid) := by
          intro h
          exact hkey2 f f2 hne (congrArg Prod.fst h)
        exact (hinv.2.forall hsymm hm1 hm2 hdiff) rfl
      | none =>
        rcases orElse_findCharPr_isSome s.charPrs b hres with ⟨base, hfind⟩
        have hEq2 : (deriveCharPr s b f2).1 = s.maxCharPrId + 1 := by
          unfold deriveCharPr
          simp only [if_neg hf2, hcl2, hfind]
        rw [hEq2]
        simp only
        omega
    | none =>
      rcases orElse_findCharPr_isSome s.charPrs b hres with ⟨base, hfind⟩
      have hEq1 : deriveCharPr s b f =
          (s.maxCharPrId + 1,
           { charPrs := s.charPrs ++ [applyFormats { base with id := s.maxCharPrId + 1 } f],
             cache := s.cache ++ [((b, f), s.maxCharPrId + 1)],
             maxCharPrId := s.maxCharPrId + 1 }) := by
        unfold deriveCharPr
        simp only [if_neg hf, hcl, hfind]
      rw [hEq1]
      set s1 : RegistryState :=
        { charPrs := s.charPrs ++ [applyFormats { base with id := s.maxCharPrId + 1 } f],
          cache := s.cache ++ [((b, f), s.maxCharPrId + 1)],
          maxCharPrId := s.maxCharPrId + 1 } with hs1
      cases hcl2 : lookupCache s1.cache (b, f2) with
      | some cid2 =>
        have hEq2 : (deriveCharPr s1 b f2).1 = cid2 := by
          unfold deriveCharPr
          simp only [if_neg hf2, hcl2]
        rw [hEq2]
        have hmem := lookupCache_mem _ _ _ hcl2
        rw [hs1] at hmem
        simp only at hmem
        rcases List.mem_append.mp hmem with hold | hnew
        · have := hinv.1 _ hold
          simp only
          omega
        · exfalso
          have hb2 : ((b, f2), cid2) = ((b, f), s.maxCharPrId + 1) := by simpa using hnew
          exact hkey2 f2 f (fun h => hne h.symm) (congrArg Prod.fst hb2)
      | none =>
        have hres1 : (findCharPr s1.charPrs b).isSome ∨ (findCharPr s1.charPrs 0).isSome := by
          rcases hres with h1 | h1
          · exact Or.inl (findCharPr_append_isSome _ _ _ h1)
          · exact Or.inr (findCharPr_append_isSome _ _ _ h1)
        rcases orElse_findCharPr_isSome s1.charPrs b hres1 with ⟨base2, hfind2⟩
        have hEq2 : (deriveCharPr s1 b f2).1 = s1.maxCharPrId + 1 := by
          unfold deriveCharPr
          simp only [if_neg hf2, hcl2, hfind2]
        rw [hEq2]
        have : s1.maxCharPrId = s.maxCharPrId + 1 := rfl
        omega

/-- A concrete one-node header registry used to instantiate C1. -/
def regW : RegistryState :=
  { charPrs := [⟨0, false, false, none, "#000000", false, false⟩],
    cache := [], maxCharPrId := 0 }

/-- Witness for C1: the theorem applied to a concrete registry holding the
single charPr node id 0, base id 0, format sets containing BOLD and ITALIC. -/
theorem c1_deriveCharPr_cache_witness :
    (deriveCharPr regW 0 ∅ = (0, regW)) ∧
    (({Fmt.BOLD} : Finset Fmt) ≠ ∅ →
      (deriveCharPr (deriveCharPr regW 0 {Fmt.BOLD}).2 0 {Fmt.BOLD}).1
        = (deriveCharPr regW 0 {Fmt.BOLD}).1 ∧
      (deriveCharPr (deriveCharPr regW 0 {Fmt.BOLD}).2 0 {Fmt.BOLD}).2
        = (deriveCharPr regW 0 {Fmt.BOLD}).2 ∧
      (deriveCharPr regW 0 {Fmt.BOLD}).2.charPrs.length ≤ regW.charPrs.length + 1) ∧
    (({Fmt.BOLD} : Finset Fmt) ≠ ∅ → ({Fmt.ITALIC} : Finset Fmt) ≠ ∅ →
      ({Fmt.BOLD} : Finset Fmt) ≠ {Fmt.ITALIC} →
      (deriveCharPr regW 0 {Fmt.BOLD}).1
        ≠ (deriveCharPr (deriveCharPr regW 0 {Fmt.BOLD}).2 0 {Fmt.ITALIC}).1) :=
  c1_deriveCharPr_cache regW 0 {Fmt.BOLD} {Fmt.ITALIC}
    ⟨by simp [regW], by simp [regW]⟩ (by left; decide)

/-! ## Counter formatting (_format_counter_text, lines 1283-1328) -/

/-- Python str.replace on character lists: scan left to right, replacing
non-overlapping occurrences of pat with rep.  Recursion is structural on a
fuel argument so that the definition evaluates by kernel reduction; every
step consumes at least one character, so fuel equal to the list length is
always sufficient. -/
def pyReplaceGo (pat rep : List Char) : Nat → List Char → List Char
  | 0, l => l
  | fuel + 1, l =>
    match l with
    | [] => []
    | c :: rest =>
      if pat ≠ [] ∧ pat.isPrefixOf (c :: rest) then
        rep ++ pyReplaceGo pat rep fuel (List.drop pat.length (c :: rest))
      else
        c :: pyReplaceGo pat rep fuel rest

/-- Python str.replace lifted to String (callers always pass a nonempty
pattern; the empty-pattern branch of Python is not reached). -/
def pyReplaceStr (s pat rep : String) : String :=
  ⟨pyReplaceGo pat.data rep.data s.data.length s.data⟩

/-- The first 20 uppercase Roman numerals, the roman_upper table. -/
def romanUpper : List String :=
  ["I", "II", "III", "IV", "V", "VI", "VII", "VIII", "IX", "X",
   "XI", "XII", "XIII", "XIV", "XV", "XVI", "XVII", "XVIII", "XIX", "XX"]

/-- The lowercased table, matching [r.lower() for r in roman_upper]. -/
def romanLower : List String :=
  ["i", "ii", "iii", "iv", "v", "vi", "vii", "viii", "ix", "x",
   "xi", "xii", "xiii", "xiv", "xv", "xvi", "xvii", "xviii", "xix", "xx"]

/-- Python list index l[counter - 1]: one-based for positive counters; for
counter = 0 Python index -1 selects the last element. -/
def pyListAt (l : List String) (counter : Nat) : String :=
  if counter = 0 then l.getLastD "" else l.getD (counter - 1) ""

/-- The re.sub with count 1 on pattern digits-run: replace the first maximal
run of ASCII digits by rep (Python re matches Unicode digits; the inputs of
interest are ASCII). -/
def subFirstDigits : List Char → List Char → List Char
  | [], _ => []
  | c :: rest, rep =>
    if c.isDigit then rep ++ rest.dropWhile Char.isDigit
    else c :: subFirstDigits rest rep

/-- Membership in the character class from 가 to 하 used by the Korean
branch of _format_counter_text. -/
def isKorChar (c : Char) : Bool := ('가' ≤ c) && (c ≤ '하')

/-- The korean_jamo table 가나다라마바사아자차카타파하 (14 syllables). -/
def koreanJamo : List Char :=
  ['가', '나', '다', '라', '마', '바', '사', '아', '자', '차', '카', '타', '파', '하']

/-- Python korean_jamo[counter - 1], with the counter = 0 negative-index
case selecting the last element. -/
def pyKorAt (counter : Nat) : Char :=
  if counter = 0 then koreanJamo.getLastD ' ' else koreanJamo.getD (counter - 1) ' '

/-- Replace the first character in the 가-하 class (the single-character
regex match) by rep. -/
def subFirstKor : List Char → Char → List Char
  | [], _ => []
  | c :: rest, rep =>
    if isKorChar c then rep :: rest else c :: subFirstKor rest rep

/-- Python str.strip with no arguments: drop whitespace from both ends
(ASCII whitespace; Python also strips some further Unicode spaces, which
never occur in the templates of interest). -/
def pyStrip (s : String) : String :=
  ⟨((s.data.dropWhile Char.isWhitespace).reverse.dropWhile Char.isWhitespace).reverse⟩

/-- Transcription of _format_counter_text (lines 1283-1328).  The stripped
template is compared against the bare Roman numeral tables; then a digit
run is substituted; then a Korean syllable; otherwise the template is
returned unchanged. -/
def formatCounterText (t : String) (counter : Nat) : String :=
  let stripped := pyStrip t
  if stripped ∈ romanUpper then
    pyReplaceStr t stripped
      (if counter ≤ romanUpper.length then pyListAt romanUpper counter else toString counter)
  else if stripped ∈ romanLower then
    pyReplaceStr t stripped
      (if counter ≤ romanLower.length then pyListAt romanLower counter else toString counter)
  else if t.data.any Char.isDigit then
    ⟨subFirstDigits t.data (toString counter).data⟩
  else if t.data.any isKorChar then
    if counter ≤ koreanJamo.length then ⟨subFirstKor t.data (pyKorAt counter)⟩ else t
  else t

/-- Counterexample for C5: the claim says the template "I." (and "i.")
yields the counter-th Roman numeral, but the code strips the template to
"I." which is not in the bare-numeral table, contains no digit and no
Korean syllable, and is therefore returned unchanged. -/
theorem c5_counterexample :
    formatCounterText "I." 2 = "I." ∧ formatCounterText "i." 2 = "i." ∧
    ("I." : String) ≠ "II." := by
  refine ⟨by decide, by decide, by decide⟩

/-- Claim C5 as amended: Roman substitution fires only when the stripped
template is exactly a bare Roman numeral such as "I" or "i"; the templates
"I." and "i." fall through every branch and are returned unchanged; "1."
replaces the digit run with the counter; "가." yields the counter-th
syllable of 가나다라마바사아자차카타파하 for counters up to 14 and is
returned unchanged beyond; any template that strips to no Roman numeral
and contains no digit and no 가-하 character is returned unchanged. -/
theorem c5_counter_formatting_amended (k : Nat) (hk1 : 1 ≤ k) (hk2 : k ≤ 20) :
    (formatCounterText "I" k = romanUpper.getD (k - 1) "" ∧
     formatCounterText "i" k = romanLower.getD (k - 1) "" ∧
     formatCounterText "I." k = "I." ∧
     formatCounterText "i." k = "i." ∧
     formatCounterText "1." k = toString k ++ "." ∧
     (k ≤ 14 → formatCounterText "가." k = String.mk [koreanJamo.getD (k - 1) ' '] ++ ".") ∧
     (14 < k → formatCounterText "가." k = "가.")) ∧
    (∀ t : String, pyStrip t ∉ romanUpper → pyStrip t ∉ romanLower →
      (∀ c ∈ t.data, ¬ c.isDigit) → (∀ c ∈ t.data, ¬ isKorChar c) →
      formatCounterText t k = t) := by
  constructor
  · interval_cases k <;> exact ⟨by decide, by decide, by decide, by decide, by decide,
      fun h => by revert h; decide, fun h => by revert h; decide⟩
  · intro t h1 h2 h3 h4
    have hd : t.data.any Char.isDigit = false := by
      rw [List.any_eq_false]
      intro c hc
      simpa using h3 c hc
    have hkor : t.data.any isKorChar = false := by
      rw [List.any_eq_false]
      intro c hc
      simpa using h4 c hc
    unfold formatCounterText
    rw [if_neg h1, if_neg h2]
    simp [hd, hkor]

/-- Witness for C5: the amended theorem applied at counter 3 and at the
pattern-free template "xyz". -/
theorem c5_counter_formatting_witness :
    formatCounterText "1." 3 = "3." ∧ formatCounterText "xyz" 3 = "xyz" :=
  ⟨by
    have h := (c5_counter_formatting_amended 3 (by decide) (by decide)).1.2.2.2.2.1
    simpa using h,
   (c5_counter_formatting_amended 3 (by decide) (by decide)).2 "xyz"
     (by decide) (by decide) (by decide) (by decide)⟩

/-! ## Template introspection validation (_parse_styles_and_init_xml, lines 609-645) -/

/-- The contiguity loop of _parse_styles_and_init_xml: index i runs over the
sorted level list and every entry must equal its index. -/
def checkLevelsFrom : List Nat → Nat → Except PyExn Unit
  | [], _ => .ok ()
  | l :: rest, i =>
    if l ≠ i then
      .error (.valueError ("Outline levels are missing/gapped. Expected "
        ++ toString i ++ ", found " ++ toString l))
    else checkLevelsFrom rest (i + 1)

/-- Outline level validation (lines 609-622): sort the detected levels,
require the first to be 0 and the run to be contiguous.  Python list.sort
is modelled by insertionSort, which agrees on lists of naturals.  Note the
raised exception class is the builtin ValueError in both checks. -/
def validateOutlineLevels (detected : List Nat) : Except PyExn Unit :=
  let ls := detected.insertionSort (· ≤ ·)
  match ls with
  | [] => .ok ()
  | l0 :: _ =>
    if l0 ≠ 0 then
      .error (.valueError ("Outline levels must start from 0. Found start: " ++ toString l0))
    else checkLevelsFrom ls 0

/-- The Normal character property reduced to the flags the cleanliness check
reads: presence of the forbidden child tags, and the type attribute of an
underline child when present. -/
structure NormalCharPr where
  bold : Bool
  italic : Bool
  underlineType : Option String
  supscript : Bool
  subscript : Bool
deriving DecidableEq, Repr

/-- The found_dirty list of lines 630-639, collected in the order of the
forbidden list; an underline child whose type is NONE is exempt. -/
def dirtyTags (n : NormalCharPr) : List String :=
  (if n.bold then ["bold"] else []) ++
  (if n.italic then ["italic"] else []) ++
  (match n.underlineType with
   | some t => if t = "NONE" then [] else ["underline"]
   | none => []) ++
  (if n.supscript then ["supscript"] else []) ++
  (if n.subscript then ["subscript"] else [])

/-- The Normal-style cleanliness check of lines 624-641, raising the builtin
ValueError when forbidden properties are present. -/
def validateNormalClean (normalCharPrId : Nat) (n : NormalCharPr) : Except PyExn Unit :=
  match dirtyTags n with
  | [] => .ok ()
  | ds =>
    .error (.valueError ("Normal Style (charPrID=" ++ toString normalCharPrId
      ++ ") must be clean. Found forbidden properties: " ++ String.intercalate ", " ds))

/-- The validation portion of _parse_styles_and_init_xml: outline levels
first (step 3), then Normal cleanliness (step 4).  When the template has no
resolvable Normal charPr node the cleanliness check is skipped. -/
def parseStylesValidate (detected : List Nat) (normalCharPrId : Nat)
    (normal : Option NormalCharPr) : Except PyExn Unit :=
  match validateOutlineLevels detected with
  | .error e => .error e
  | .ok () =>
    match normal with
    | some n => validateNormalClean normalCharPrId n
    | none => .ok ()

/-- A clean Normal character property. -/
def cleanNormal : NormalCharPr :=
  { bold := false, italic := false, underlineType := none,
    supscript := false, subscript := false }

lemma checkLevelsFrom_ok_iff (l : List Nat) (i : Nat) :
    checkLevelsFrom l i = .ok () ↔ l = List.range' i l.length := by
  induction l generalizing i with
  | nil => simp [checkLevelsFrom]
  | cons x rest ih =>
    unfold checkLevelsFrom
    by_cases hx : x = i
    · subst hx
      simp only [ne_eq, not_true_eq_false, if_neg, List.length_cons, List.range'_succ]
      rw [if_neg (by simp)]
      constructor
      · intro h
        have := (ih (x + 1)).mp h
        rw [List.cons.injEq]
        exact ⟨rfl, this⟩
      · intro h
        exact (ih (x + 1)).mpr (List.cons.injEq .. ▸ h).2
    · rw [if_pos hx]
      constructor
      · intro h
        exact absurd h (by simp)
      · intro h
        rw [List.length_cons, List.range'_succ] at h
        exact absurd (List.cons.injEq .. ▸ h).1 hx

instance {ε α : Type} [DecidableEq ε] [DecidableEq α] : DecidableEq (Except ε α) :=
  fun a b =>
    match a, b with
    | .ok x, .ok y =>
      if h : x = y then isTrue (by rw [h]) else isFalse (by simp [h])
    | .ok _, .error _ => isFalse (by simp)
    | .error _, .ok _ => isFalse (by simp)
    | .error e1, .error e2 =>
      if h : e1 = e2 then isTrue (by rw [h]) else isFalse (by simp [h])

/-- Counterexample for C4: on a template with outline levels 0, 1, 3 and a
clean Normal property, introspection does fail, but the exception raised is
the builtin ValueError, not StyleError. -/
theorem c4_counterexample :
    isStyleErr (parseStylesValidate [0, 1, 3] 0 (some cleanNormal)) = false ∧
    isValueErr (parseStylesValidate [0, 1, 3] 0 (some cleanNormal)) = true ∧
    parseStylesValidate [0, 1, 2] 0 (some cleanNormal) = .ok () := by
  refine ⟨by decide, by decide, by decide⟩

lemma validateOutline_ok_iff (detected : List Nat) :
    validateOutlineLevels detected = .ok () ↔
      detected.insertionSort (· ≤ ·) = List.range detected.length := by
  unfold validateOutlineLevels
  rw [List.range_eq_range',
    show detected.length = (detected.insertionSort (· ≤ ·)).length from
      (List.length_insertionSort _ _).symm]
  generalize detected.insertionSort (· ≤ ·) = ls
  match ls with
  | [] => simp
  | l0 :: rest =>
    simp only
    by_cases h0 : l0 ≠ 0
    · rw [if_pos h0]
      constructor
      · intro h
        exact absurd h (by simp)
      · intro h
        rw [List.length_cons, List.range'_succ] at h
        exact absurd (List.cons.injEq .. ▸ h).1 h0
    · rw [if_neg h0]
      rw [checkLevelsFrom_ok_iff]

lemma checkLevelsFrom_error (l : List Nat) (i : Nat) (e : PyExn)
    (h : checkLevelsFrom l i = .error e) : ∃ m, e = .valueError m := by
  induction l generalizing i with
  | nil => simp [checkLevelsFrom] at h
  | cons x rest ih =>
    unfold checkLevelsFrom at h
    by_cases hx : x ≠ i
    · rw [if_pos hx] at h
      exact ⟨_, (Except.error.inj h).symm⟩
    · rw [if_neg hx] at h
      exact ih _ h

lemma validateOutline_error (detected : List Nat) (e : PyExn)
    (h : validateOutlineLevels detected = .error e) : ∃ m, e = .valueError m := by
  unfold validateOutlineLevels at h
  revert h
  generalize detected.insertionSort (· ≤ ·) = ls
  match ls with
  | [] => intro h; exact absurd h (by simp)
  | l0 :: rest =>
    simp only
    by_cases h0 : l0 ≠ 0
    · rw [if_pos h0]
      intro h
      exact ⟨_, (Except.error.inj h).symm⟩
    · rw [if_neg h0]
      exact checkLevelsFrom_error _ _ e

/-- Claim C4 as amended: introspection validation succeeds exactly when the
sorted outline levels form the contiguous run 0..n-1 and the Normal
character property carries none of bold, italic, a non-NONE underline,
supscript or subscript; every failure raises the builtin ValueError (not
StyleError, which the code imports but never raises). -/
theorem c4_outline_validation_amended (detected : List Nat) (nid : Nat) (n : NormalCharPr) :
    (parseStylesValidate detected nid (some n) = .ok () ↔
      (detected.insertionSort (· ≤ ·) = List.range detected.length ∧ dirtyTags n = [])) ∧
    (∀ e, parseStylesValidate detected nid (some n) = .error e → ∃ m, e = .valueError m) := by
  have houtline := validateOutline_ok_iff detected
  have houtlineErr := validateOutline_error detected
  have hcleanOk : validateNormalClean nid n = .ok () ↔ dirtyTags n = [] := by
    unfold validateNormalClean
    cases dirtyTags n with
    | nil => simp
    | cons d ds => simp
  have hcleanErr : ∀ e, validateNormalClean nid n = .error e → ∃ m, e = .valueError m := by
    intro e
    unfold validateNormalClean
    cases dirtyTags n with
    | nil => intro h; exact absurd h (by simp)
    | cons d ds =>
      intro h
      exact ⟨_, (Except.error.inj h).symm⟩
  constructor
  · cases hv : validateOutlineLevels detected with
    | error e =>
      unfold parseStylesValidate
      rw [hv]
      constructor
      · intro h
        exact absurd h (by simp)
      · intro h
        exact absurd (houtline.mpr h.1) (by rw [hv]; simp)
    | ok u =>
      cases u
      unfold parseStylesValidate
      rw [hv]
      simp only
      rw [hcleanOk]
      have := houtline.mp hv
      constructor
      · intro h
        exact ⟨this, h⟩
      · intro h
        exact h.2
  · intro e
    unfold parseStylesValidate
    cases hv : validateOutlineLevels detected with
    | error e0 =>
      intro h
      have he : e0 = e := Except.error.inj h
      exact he ▸ houtlineErr e0 hv
    | ok u =>
      cases u
      simp only
      exact hcleanErr e

/-- Witness for C4: the amended theorem applied to the contiguous level set
0, 1, 2 with a clean Normal property, and to the gapped set 0, 1, 3. -/
theorem c4_outline_validation_witness :
    parseStylesValidate [0, 1, 2] 0 (some cleanNormal) = .ok () ∧
    parseStylesValidate [0, 1, 3] 0 (some cleanNormal) ≠ .ok () :=
  ⟨(c4_outline_validation_amended [0, 1, 2] 0 cleanNormal).1.mpr ⟨by decide, by decide⟩,
   fun h => by
    have := (c4_outline_validation_amended [0, 1, 3] 0 cleanNormal).1.mp h
    exact absurd this.1 (by decide)⟩

/-! ## Table column widths (_handle_table_elem, lines 1843-1859) -/

/-- Python int() applied to a real value: truncation toward zero. -/
def pyInt (q : ℚ) : ℤ := if 0 ≤ q then ⌊q⌋ else ⌈q⌉

/-- The width information of one Pandoc column spec: a proportion (from the
separator dash counts, see MarkoToPandocAdapter._get_col_width_info) or the
default marker. -/
inductive ColWidthInfo where
  | colWidth (p : ℚ)
  | colWidthDefault
deriving DecidableEq, Repr

/-- One column spec: alignment and width information. -/
structure ColSpec where
  align : String
  width : ColWidthInfo
deriving DecidableEq, Repr

/-- True when the spec carries a ColWidth proportion. -/
def isProportionalSpec (s : ColSpec) : Bool :=
  match s.width with
  | .colWidth _ => true
  | .colWidthDefault => false

/-- The active total width: template_table_width if truthy (nonzero), else
config.TABLE_WIDTH = 45000. -/
def activeTableWidth (templateTableWidth : Option ℤ) : ℚ :=
  match templateTableWidth with
  | some w => if w = 0 then 45000 else (w : ℚ)
  | none => 45000

/-- The width computation of _handle_table_elem lines 1843-1859.  Python
arithmetic is on binary floats; rationals model it exactly for the
proportions produced by the dash-count adapter at these magnitudes, and the
claim-relevant truncation behavior of int() is kept by pyInt. -/
def computeColWidths (tw : Option ℤ) (specs : List ColSpec) : List ℤ :=
  let total := activeTableWidth tw
  let colCnt : ℚ := (specs.length : ℚ)
  if specs.any isProportionalSpec then
    specs.map (fun s =>
      match s.width with
      | .colWidth p => pyInt (p * total)
      | .colWidthDefault => pyInt (total / colCnt))
  else
    specs.map (fun _ => pyInt (total / colCnt))

/-- Counterexample for C7: with dash counts 3 and 4 (proportions 3/7 and
4/7) and the default total 45000, the emitted first width is 19285 =
int(3/7 * 45000), while the claimed round(3/7 * 45000) is 19286. -/
theorem c7_counterexample :
    computeColWidths none
      [⟨"AlignDefault", .colWidth (3 / 7)⟩, ⟨"AlignDefault", .colWidth (4 / 7)⟩]
      = [19285, 25714] ∧
    round ((3 : ℚ) / 7 * 45000) = (19286 : ℤ) := by
  constructor
  · norm_num [computeColWidths, activeTableWidth, isProportionalSpec, pyInt]
  · norm_num [round_eq]

/-- Claim C7 as amended: the total width is the template table width when
one was supplied (and nonzero), else 45000; a column whose spec carries a
nonnegative proportion p is emitted with width the floor of p times the
total (Python int() truncation, not rounding); when no spec carries a
proportion every column gets int(total / count); the dash counts 3, 5, 2
yield widths 13500, 22500, 9000, in ratio 3 : 5 : 2 of 45000. -/
theorem c7_table_widths_amended (tw : Option ℤ) (specs : List ColSpec)
    (i : Nat) (s : ColSpec) (p : ℚ)
    (hget : specs.get? i = some s) (htw : 0 ≤ activeTableWidth tw) :
    (specs.any isProportionalSpec = true → s.width = .colWidth p → 0 ≤ p →
      (computeColWidths tw specs).get? i = some ⌊p * activeTableWidth tw⌋) ∧
    (specs.any isProportionalSpec = false →
      (computeColWidths tw specs).get? i
        = some (pyInt (activeTableWidth tw / (specs.length : ℚ)))) ∧
    (computeColWidths none
      [⟨"AlignLeft", .colWidth (3 / 10)⟩, ⟨"AlignLeft", .colWidth (5 / 10)⟩,
       ⟨"AlignLeft", .colWidth (2 / 10)⟩] = [13500, 22500, 9000]) := by
  refine ⟨?_, ?_,
    by norm_num [computeColWidths, activeTableWidth, isProportionalSpec, pyInt]⟩
  · intro hany hw hp
    obtain ⟨al, w⟩ := s
    have hw2 : w = .colWidth p := hw
    subst hw2
    have hpy : pyInt (p * activeTableWidth tw) = ⌊p * activeTableWidth tw⌋ := by
      unfold pyInt
      rw [if_pos (mul_nonneg hp htw)]
    unfold computeColWidths
    rw [if_pos hany, List.get?_map, hget, Option.map_some']
    show some (pyInt (p * activeTableWidth tw)) = some ⌊p * activeTableWidth tw⌋
    rw [hpy]
  · intro hany
    unfold computeColWidths
    rw [if_neg (by rw [hany]; simp), List.get?_map, hget]
    simp

/-- Witness for C7: the amended theorem applied to the 3, 5, 2 dash-count
table with the default total width. -/
theorem c7_table_widths_witness :
    (computeColWidths none
      [⟨"AlignLeft", .colWidth (3 / 10)⟩, ⟨"AlignLeft", .colWidth (5 / 10)⟩,
       ⟨"AlignLeft", .colWidth (2 / 10)⟩]).get? 0
      = some ⌊(3 / 10 : ℚ) * activeTableWidth none⌋ :=
  (c7_table_widths_amended none
    [⟨"AlignLeft", .colWidth (3 / 10)⟩, ⟨"AlignLeft", .colWidth (5 / 10)⟩,
     ⟨"AlignLeft", .colWidth (2 / 10)⟩] 0 ⟨"AlignLeft", .colWidth (3 / 10)⟩ (3 / 10)
    rfl (by norm_num [activeTableWidth])).1 rfl rfl (by norm_num)

/-! ## Image path validation (_validate_image_path, lines 454-486) -/

/-- String prefix test on the character lists (str.startswith). -/
def pyStartsWith (s pre : String) : Bool := pre.data.isPrefixOf s.data

/-- String suffix test on the character lists (str.endswith). -/
def pyEndsWith (s suf : String) : Bool := suf.data.isSuffixOf s.data

/-- Python str.split on a single separator character: keeps empty pieces,
so an empty string yields one empty piece. -/
def splitOnSep (sep : Char) : List Char → List (List Char)
  | [] => [[]]
  | c :: rest =>
    match splitOnSep sep rest with
    | [] => [[]]
    | h :: t => if c = sep then [] :: h :: t else (c :: h) :: t

/-- Python path.split on slash, producing strings. -/
def splitSlash (s : String) : List String :=
  (splitOnSep '/' s.data).map (fun l => ⟨l⟩)

/-- Join strings with a separator (the sep.join of Python). -/
def joinSep (sep : String) : List String → String
  | [] => ""
  | [x] => x
  | x :: y :: xs => x ++ sep ++ joinSep sep (y :: xs)

/-- os.path.isabs on POSIX: the path starts with a slash. -/
def posixIsAbs (p : String) : Bool := pyStartsWith p "/"

/-- The component loop of CPython posixpath.normpath: empty and dot
components are dropped; a dot-dot component pops the previous component
unless there is none to pop (at the root it is dropped, in a relative path
it is kept). -/
def normpathLoop (initialSlashes : Bool) : List String → List String → List String
  | acc, [] => acc
  | acc, comp :: rest =>
    if comp = "" ∨ comp = "." then normpathLoop initialSlashes acc rest
    else if comp ≠ ".." ∨ (¬ initialSlashes ∧ acc = []) ∨ (acc ≠ [] ∧ acc.getLast? = some "..") then
      normpathLoop initialSlashes (acc ++ [comp]) rest
    else if acc ≠ [] then normpathLoop initialSlashes acc.dropLast rest
    else normpathLoop initialSlashes acc rest

/-- CPython posixpath.normpath: collapse empty and dot components, resolve
dot-dot against preceding components, and preserve one or two initial
slashes. -/
def posixNormpath (p : String) : String :=
  if p = "" then "."
  else
    let initSl : Nat :=
      if pyStartsWith p "/" then
        if pyStartsWith p "//" ∧ ¬ pyStartsWith p "///" then 2 else 1
      else 0
    let comps := normpathLoop (initSl ≠ 0) [] (splitSlash p)
    let path := joinSep "/" comps
    let path := ⟨List.replicate initSl '/'⟩ ++ path
    if path = "" then "." else path

/-- os.path.join for two POSIX paths, as used by the base-directory check. -/
def posixJoin (a b : String) : String :=
  if pyStartsWith b "/" then b
  else if a = "" ∨ pyEndsWith a "/" then a ++ b
  else a ++ "/" ++ b

/-- Transcription of _validate_image_path (lines 454-486): reject absolute
paths; normalize and reject when a dot-dot component survives; when a base
directory is known, reject when the resolved path escapes it.  The
normalized path has backslashes replaced by slashes before splitting. -/
def validateImagePath (imagePath : String) (baseDir : Option String) : Except PyExn Unit :=
  if posixIsAbs imagePath then
    .error (.securityError ("Absolute image paths are not allowed: " ++ imagePath))
  else
    let normalized := posixNormpath imagePath
    let parts := splitSlash (pyReplaceStr normalized "\\" "/")
    if parts.contains ".." then
      .error (.securityError ("Directory traversal in image path is not allowed: " ++ imagePath))
    else
      match baseDir with
      | none => .ok ()
      | some base =>
        let resolved := posixNormpath (posixJoin base imagePath)
        let baseResolved := posixNormpath base
        if ¬ pyStartsWith resolved (baseResolved ++ "/") ∧ resolved ≠ baseResolved then
          .error (.securityError ("Image path resolves outside input directory: " ++ imagePath))
        else .ok ()

/-! ## Document AST

The Pandoc-style AST consumed by the emitter (spec section 3), restricted
to the variants the claims exercise.  Note carries blocks and is omitted
together with CodeBlock, Table, BlockQuote and HorizontalRule: no claim
depends on footnotes, code blocks, emitted tables (the table width
computation is modelled separately above) or block quotes. -/

inductive Inline where
  | str (s : String)
  | space
  | softBreak
  | lineBreak
  | strong (xs : List Inline)
  | emph (xs : List Inline)
  | underline (xs : List Inline)
  | strikeout (xs : List Inline)
  | superscript (xs : List Inline)
  | subscript (xs : List Inline)
  | code (s : String)
  | link (url : String) (xs : List Inline)
  | image (url : String) (caption : List Inline)
deriving Repr

/-- Block variants (the unknown constructor stands for every AST node type
_process_blocks has no branch for and silently skips). -/
inductive Block where
  | para (inls : List Inline)
  | plain (inls : List Inline)
  | header (level : Nat) (inls : List Inline)
  | bulletList (items : List (List Block))
  | orderedList (start : Nat) (items : List (List Block))
  | unknown
deriving Repr

/-- Transcription of _get_plain_text (lines 114-138).  SoftBreak and
LineBreak have no branch and contribute nothing; Strikeout children are
included.  The Image branch appends the plain text of the caption. -/
def getPlainText : List Inline → String
  | [] => ""
  | .str s :: rest => s ++ getPlainText rest
  | .space :: rest => " " ++ getPlainText rest
  | .softBreak :: rest => getPlainText rest
  | .lineBreak :: rest => getPlainText rest
  | .strong xs :: rest => getPlainText xs ++ getPlainText rest
  | .emph xs :: rest => getPlainText xs ++ getPlainText rest
  | .underline xs :: rest => getPlainText xs ++ getPlainText rest
  | .strikeout xs :: rest => getPlainText xs ++ getPlainText rest
  | .superscript xs :: rest => getPlainText xs ++ getPlainText rest
  | .subscript xs :: rest => getPlainText xs ++ getPlainText rest
  | .code s :: rest => s ++ getPlainText rest
  | .link _ xs :: rest => getPlainText xs ++ getPlainText rest
  | .image _ cap :: rest => getPlainText cap ++ getPlainText rest

/-! ## Emitted body model -/

/-- The template table copied by the header-in-table mode, reduced to the
fields _handle_header_in_table mutates: the formatted numbering cell text,
the substituted header text, and the style ids written onto the placeholder
paragraph and run. -/
structure TablePayload where
  numberingCellText : Option String
  headerText : String
  paraPrIDRef : Nat
  styleIDRef : Nat
  charPrIDRef : Nat
deriving DecidableEq, Repr

/-- One hp:run of the emitted body. -/
inductive Run where
  | text (charPrIDRef : Nat) (t : String)
  | lineBrk (charPrIDRef : Nat)
  | fieldBegin (fieldId : Nat) (commandStr : String) (pathStr : String)
  | fieldEnd (beginIDRef : Nat)
  | pic (charPrIDRef : Nat) (binaryItemIDRef : String)
  | tableRun (charPrIDRef : Nat) (payload : TablePayload)
deriving DecidableEq, Repr

/-- The attributes of an emitted hp:p (see _create_para_elem). -/
structure ParaAttrs where
  paraPrIDRef : Nat
  styleIDRef : Nat
  pageBreak : Nat
  columnBreak : Nat
deriving DecidableEq, Repr

/-- One emitted paragraph. -/
structure Para where
  attrs : ParaAttrs
  runs : List Run
deriving DecidableEq, Repr

/-! ## Template model and converter state -/

/-- Modes of a text placeholder (plain, prefix, table). -/
inductive PMode where
  | plain
  | pfx
  | table
deriving DecidableEq, Repr

/-- One entry of placeholder_styles, as loaded by _load_placeholder_styles. -/
structure PlaceholderProps where
  charPrIDRef : Nat
  paraPrIDRef : Nat
  styleIDRef : Nat
  pfx : Option String
  pfxCharPrIDRef : Option Nat
  mode : PMode
  numberingText : Option String
deriving DecidableEq, Repr

/-- Modes of a list placeholder (prefix or template numbering). -/
inductive LMode where
  | pfx
  | numbering
deriving DecidableEq, Repr

/-- One entry of list_styles. -/
structure ListStyleInfo where
  charPrIDRef : Nat
  paraPrIDRef : Nat
  mode : LMode
  pfx : Option String
  numPrIDRef : Option Nat
deriving DecidableEq, Repr

/-- Bullet or ordered, the two list kinds. -/
inductive ListKind where
  | bullet
  | ordered
deriving DecidableEq, Repr

/-- The read-only template model and configuration of one conversion:
placeholder tables built by _load_placeholder_styles, the outline style
maps of _parse_styles_and_init_xml, the Normal style ids, and the
ConversionConfig values the emitter reads. -/
structure Ctx where
  placeholderH : Nat → Option PlaceholderProps
  bodyPh : Option PlaceholderProps
  listStyles : ListKind → Nat → Option ListStyleInfo
  hasDynamicStyle : Nat → Bool
  outlineStyleIds : Nat → Option Nat
  styleById : Nat → Option (Nat × Nat)
  normalStyleId : Nat
  normalParaPrId : Nat
  normalCharPrId : Nat
  pageBreakBeforeH1 : Bool
  maxNestingDepth : Nat
  maxImageCount : Nat
  tempDir : String
  inputDir : Option String

/-- Metadata recorded for one embedded image (self.images entries). -/
structure ImageRec where
  id : String
  path : String
  ext : String
deriving DecidableEq, Repr

/-- The mutable converter state threaded through emission: the character
property registry, the paragraph-property, numbering and border-fill
collections of the header (tracked by their id lists), the image list, the
emitted-block flag, the header counters, and a fresh counter standing in
for the time- and randomness-based id generation of the code (no claim
depends on the generated id values). -/
structure ConvState where
  reg : RegistryState
  maxParaPrId : Nat
  paraPrs : List Nat
  numberings : List Nat
  borderFills : List Nat
  images : List ImageRec
  hasEmittedBlock : Bool
  headerCounters : List (Nat × Nat)
  freshTick : Nat
  lastFieldId : Nat
deriving DecidableEq

/-- deriveCharPr acting on the full converter state. -/
def getCharPrIdSt (st : ConvState) (base : Nat) (fmts : Finset Fmt) : Nat × ConvState :=
  let r := deriveCharPr st.reg base fmts
  (r.1, { st with reg := r.2 })

/-! ## Image handling (_handle_image_elem, lines 2199-2320) -/

/-- ASCII lower casing (str.lower restricted to the ASCII range of the
URLs of interest). -/
def asciiLower (c : Char) : Char :=
  if 'A' ≤ c ∧ c ≤ 'Z' then Char.ofNat (c.toNat + 32) else c

/-- str.lower on the character list. -/
def pyLower (s : String) : String := ⟨s.data.map asciiLower⟩

/-- Extension inference of lines 2300-2308: jpg, gif and bmp by suffix of
the lowercased URL, defaulting to png. -/
def extFromUrl (url : String) : String :=
  let lower := pyLower url
  if pyEndsWith lower ".jpg" ∨ pyEndsWith lower ".jpeg" then "jpg"
  else if pyEndsWith lower ".gif" then "gif"
  else if pyEndsWith lower ".bmp" then "bmp"
  else "png"

/-- Transcription of the control flow of _handle_image_elem (lines
2199-2224 and 2295-2321): a temp-file path (absolute and under the temp
directory) skips validation; a validation failure is caught and yields a
placeholder text run with no image recorded; the image-count limit yields
its own placeholder; otherwise the image is recorded and a picture run
emitted.  The pixel-size resolution (lines 2226-2293) reads image files and
is elided; no claim depends on the emitted sizes. -/
def handleImageElem (ctx : Ctx) (st : ConvState) (url : String) (charPrId : Nat) :
    ConvState × Run :=
  let isTemp := posixIsAbs url && pyStartsWith url ctx.tempDir
  let valRes : Except PyExn Unit :=
    if isTemp then .ok () else validateImagePath url ctx.inputDir
  match valRes with
  | .error _ => (st, .text charPrId ("[Image: " ++ url ++ "]"))
  | .ok _ =>
    if st.images.length ≥ ctx.maxImageCount then
      (st, .text charPrId ("[Image limit exceeded: " ++ url ++ "]"))
    else
      let ext := extFromUrl url
      let bid := "img_" ++ toString st.freshTick
      ({ st with
          images := st.images ++ [⟨bid, url, ext⟩],
          freshTick := st.freshTick + 1 },
       .pic charPrId bid)

/-! ## Inline processing (_process_inlines_to_elems, lines 2062-2149) -/

/-- The Command parameter of a hyperlink field: the URL with colon and
question mark backslash-escaped, followed by ;1;5;-1; (lines 2403-2405). -/
def mkCommandStr (url : String) : String :=
  pyReplaceStr (pyReplaceStr url ":" "\\:") "?" "\\?" ++ ";1;5;-1;"

/-- Transcription of _process_inlines_to_elems.  Strikeout has no branch in
the code: it produces no run and its children are never visited.  Note is
omitted together with footnotes (see the AST comment).  Field ids are drawn
from the fresh counter standing in for the time-based ids. -/
def processInlines (ctx : Ctx) (st : ConvState) (inls : List Inline)
    (baseCharPrId : Nat) (fmts : Finset Fmt) : ConvState × List Run :=
  match inls with
  | [] => (st, [])
  | .str s :: rest =>
    let (cid, st1) := getCharPrIdSt st baseCharPrId fmts
    let (st2, rs) := processInlines ctx st1 rest baseCharPrId fmts
    (st2, .text cid s :: rs)
  | .space :: rest =>
    let (cid, st1) := getCharPrIdSt st baseCharPrId fmts
    let (st2, rs) := processInlines ctx st1 rest baseCharPrId fmts
    (st2, .text cid " " :: rs)
  | .softBreak :: rest =>
    let (cid, st1) := getCharPrIdSt st baseCharPrId fmts
    let (st2, rs) := processInlines ctx st1 rest baseCharPrId fmts
    (st2, .text cid " " :: rs)
  | .lineBreak :: rest =>
    let (cid, st1) := getCharPrIdSt st baseCharPrId fmts
    let (st2, rs) := processInlines ctx st1 rest baseCharPrId fmts
    (st2, .lineBrk cid :: rs)
  | .strong xs :: rest =>
    let (st1, rs1) := processInlines ctx st xs baseCharPrId (insert Fmt.BOLD fmts)
    let (st2, rs2) := processInlines ctx st1 rest baseCharPrId fmts
    (st2, rs1 ++ rs2)
  | .emph xs :: rest =>
    let (st1, rs1) := processInlines ctx st xs baseCharPrId (insert Fmt.ITALIC fmts)
    let (st2, rs2) := processInlines ctx st1 rest baseCharPrId fmts
    (st2, rs1 ++ rs2)
  | .underline xs :: rest =>
    let (st1, rs1) := processInlines ctx st xs baseCharPrId (insert Fmt.UNDERLINE fmts)
    let (st2, rs2) := processInlines ctx st1 rest baseCharPrId fmts
    (st2, rs1 ++ rs2)
  | .strikeout _ :: rest =>
    processInlines ctx st rest baseCharPrId fmts
  | .superscript xs :: rest =>
    let (st1, rs1) := processInlines ctx st xs baseCharPrId (insert Fmt.SUPERSCRIPT fmts)
    let (st2, rs2) := processInlines ctx st1 rest baseCharPrId fmts
    (st2, rs1 ++ rs2)
  | .subscript xs :: rest =>
    let (st1, rs1) := processInlines ctx st xs baseCharPrId (insert Fmt.SUBSCRIPT fmts)
    let (st2, rs2) := processInlines ctx st1 rest baseCharPrId fmts
    (st2, rs1 ++ rs2)
  | .code s :: rest =>
    let (cid, st1) := getCharPrIdSt st baseCharPrId fmts
    let (st2, rs) := processInlines ctx st1 rest baseCharPrId fmts
    (st2, .text cid s :: rs)
  | .link url xs :: rest =>
    let fid := st.freshTick
    let st0 := { st with freshTick := st.freshTick + 1, lastFieldId := fid }
    let (st1, rs1) := processInlines ctx st0 xs baseCharPrId
      (insert Fmt.UNDERLINE (insert Fmt.COLOR_BLUE fmts))
    let (st2, rs2) := processInlines ctx st1 rest baseCharPrId fmts
    (st2, .fieldBegin fid (mkCommandStr url) url :: (rs1 ++ .fieldEnd st1.lastFieldId :: rs2))
  | .image url _cap :: rest =>
    let (cid, st1) := getCharPrIdSt st baseCharPrId fmts
    let (st2, r) := handleImageElem ctx st1 url cid
    let (st3, rs) := processInlines ctx st2 rest baseCharPrId fmts
    (st3, r :: rs)

/-! ## Header and paragraph emission (_handle_header and friends) -/

/-- Value of header_counters for a level, defaulting to 0. -/
def countersGet (l : List (Nat × Nat)) (k : Nat) : Nat :=
  match l.find? (fun p => p.1 == k) with
  | some p => p.2
  | none => 0

/-- Set the counter for a level. -/
def countersSet : List (Nat × Nat) → Nat → Nat → List (Nat × Nat)
  | [], k, v => [(k, v)]
  | (k0, v0) :: rest, k, v =>
    if k0 = k then (k0, v) :: rest else (k0, v0) :: countersSet rest k v

/-- Transcription of _handle_header_styled (lines 1439-1477): the
paragraph takes the placeholder ids; a nonempty prefix is emitted as a run
carrying the counter-formatted prefix with the prefix charPr when the
template captured one. -/
def handleHeaderStyled (ctx : Ctx) (st : ConvState) (inls : List Inline)
    (props : PlaceholderProps) (colBrk counter pgBrk : Nat) : ConvState × Para :=
  let charPrId := props.charPrIDRef
  let attrs : ParaAttrs := ⟨props.paraPrIDRef, props.styleIDRef, pgBrk, colBrk⟩
  let pfxRuns : List Run :=
    match props.pfx with
    | some p =>
      if p ≠ "" then [.text (props.pfxCharPrIDRef.getD charPrId) (formatCounterText p counter)]
      else []
    | none => []
  let r := processInlines ctx st inls charPrId ∅
  (r.1, ⟨attrs, pfxRuns ++ r.2⟩)

/-- Transcription of _handle_header_in_table (lines 1330-1395), with the
deep-copied template table reduced to the mutated fields: the numbering
cell receives the counter-formatted numbering text, the placeholder cell
receives the plain header text and the placeholder ids, and the whole table
sits inside a wrapper paragraph (Normal ids) and run so page-setup
injection can find a run. -/
def handleHeaderInTable (ctx : Ctx) (st : ConvState) (inls : List Inline)
    (props : PlaceholderProps) (colBrk counter pgBrk : Nat) : ConvState × Para :=
  let payload : TablePayload :=
    { numberingCellText := props.numberingText.map (fun t => formatCounterText t counter),
      headerText := getPlainText inls,
      paraPrIDRef := props.paraPrIDRef,
      styleIDRef := props.styleIDRef,
      charPrIDRef := props.charPrIDRef }
  let attrs : ParaAttrs := ⟨ctx.normalParaPrId, ctx.normalStyleId, pgBrk, colBrk⟩
  (st, ⟨attrs, [.tableRun 0 payload]⟩)

/-- Transcription of _handle_header (lines 1213-1281): a leading LineBreak
becomes columnBreak; pageBreak is set for a level-1 header after an emitted
block when PAGE_BREAK_BEFORE_H1 holds; deeper counters are reset; a
placeholder bumps its counter and dispatches by mode; otherwise the outline
fallback runs, raising the builtin ValueError when the level is unmapped. -/
def handleHeader (ctx : Ctx) (st : ConvState) (level : Nat) (inls : List Inline) :
    Except PyExn (ConvState × Para) :=
  let cb : Nat × List Inline :=
    match inls with
    | .lineBreak :: rest => (1, rest)
    | _ => (0, inls)
  let colBrk := cb.1
  let inls := cb.2
  let pgBrk : Nat :=
    if level = 1 ∧ st.hasEmittedBlock ∧ ctx.pageBreakBeforeH1 then 1 else 0
  let counters0 := st.headerCounters.filter (fun p => decide (p.1 ≤ level))
  let st := { st with headerCounters := counters0 }
  match ctx.placeholderH level with
  | some props =>
    let counter := countersGet counters0 level + 1
    let st := { st with headerCounters := countersSet counters0 level counter }
    match props.mode with
    | .table => .ok (handleHeaderInTable ctx st inls props colBrk counter pgBrk)
    | _ => .ok (handleHeaderStyled ctx st inls props colBrk counter pgBrk)
  | none =>
    if ¬ ctx.hasDynamicStyle (level - 1) then
      .error (.valueError ("Requested Header Level " ++ toString level ++ " (HWPX Level "
        ++ toString (level - 1) ++ ") not found in header.xml style map."))
    else
      let styleId := (ctx.outlineStyleIds level).getD level
      let pr := (ctx.styleById styleId).getD (ctx.normalParaPrId, 0)
      let r := processInlines ctx st inls pr.2 ∅
      .ok (r.1, ⟨⟨pr.1, styleId, pgBrk, colBrk⟩, r.2⟩)

/-- Transcription of _handle_text_block (lines 1479-1505), shared by Para
and Plain: the BODY placeholder ids when present, else the Normal
paragraph property and the Normal style charPr (ctx.normalCharPrId models
the charPrIDRef resolved from the Normal style node, default 0).  The
emitted paragraph always carries pageBreak 0 and columnBreak 0. -/
def handleTextBlock (ctx : Ctx) (st : ConvState) (inls : List Inline) : ConvState × Para :=
  let ids : Nat × Nat :=
    match ctx.bodyPh with
    | some props => (props.charPrIDRef, props.paraPrIDRef)
    | none => (ctx.normalCharPrId, ctx.normalParaPrId)
  let r := processInlines ctx st inls ids.1 ∅
  (r.1, ⟨⟨ids.2, ctx.normalStyleId, 0, 0⟩, r.2⟩)

/-! ## Lists (_handle_bullet_list_elem, _handle_ordered_list_elem,
_handle_prefix_list_elem, _handle_template_numbering_list_elem) -/

/-- Transcription of _format_list_prefix (lines 2802-2819): bullet lists
and missing prefixes pass through unchanged; ordered lists delegate to the
counter formatter. -/
def formatListPfx (pfxTemplate : Option String) (kind : ListKind) (counter : Nat) :
    Option String :=
  if kind = .bullet then pfxTemplate
  else
    match pfxTemplate with
    | none => none
    | some p => some (formatCounterText p counter)

/-- Transcription of _create_numbering (lines 2608-2646): a fresh id one
past the current maximum, appended to the numberings collection.  The fixed
seven-level paraHead template (bullet glyphs or ordered formats) and the
start attribute only affect the XML content of the node, which the claims
do not inspect; the id bookkeeping is kept exactly. -/
def createNumbering (st : ConvState) (_kind : ListKind) (_startNum : Nat) : Nat × ConvState :=
  let newId := (st.numberings.foldl max 0) + 1
  (newId, { st with numberings := st.numberings ++ [newId] })

/-- Transcription of _get_list_para_pr (lines 2648-2686): clone the Normal
paragraph property under a fresh id and append it to paraProperties (the
heading reference and indent mutations live in the node content, which the
claims do not inspect).  Called once per block of every fallback list item. -/
def getListParaPr (st : ConvState) (_numId _level : Nat) : Nat × ConvState :=
  let newId := st.maxParaPrId + 1
  (newId, { st with maxParaPrId := newId, paraPrs := st.paraPrs ++ [newId] })

/-- The prefix run list of one prefix-mode list paragraph (lines
2856-2862): the counter-formatted prefix as a text run with the template
charPr, skipped when empty or missing. -/
def pfxRunsOf (sty : ListStyleInfo) (kind : ListKind) (counter : Nat) : List Run :=
  match formatListPfx sty.pfx kind counter with
  | some p => if p ≠ "" then [Run.text sty.charPrIDRef p] else []
  | none => []

/-- The default list style when the template defines none for the key:
style_info.get returns an empty dict, so charPrIDRef falls back to 0,
paraPrIDRef to the Normal paragraph property, and the prefix to empty. -/
def defaultListStyle (ctx : Ctx) : ListStyleInfo :=
  ⟨0, ctx.normalParaPrId, .pfx, none, none⟩

mutual

/-- Transcription of _handle_bullet_list_elem (lines 2688-2735): clamp the
level, dispatch on the template list style mode, fall back to a fresh
numbering. -/
def handleBulletList (ctx : Ctx) (st : ConvState) (items : List (List Block))
    (level : Nat) : Except PyExn (ConvState × List Para) :=
  let level := if level ≥ ctx.maxNestingDepth then ctx.maxNestingDepth - 1 else level
  match ctx.listStyles .bullet (level + 1) with
  | some sty =>
    match sty.mode with
    | .numbering => handleNumItems ctx st .bullet level items
    | .pfx => handlePfxItems ctx st .bullet level items 1
  | none =>
    let r := createNumbering st .bullet 1
    fallbackItems ctx r.2 r.1 level items
termination_by (sizeOf items, 3)

/-- Transcription of _handle_ordered_list_elem (lines 2742-2795). -/
def handleOrderedList (ctx : Ctx) (st : ConvState) (start : Nat)
    (items : List (List Block)) (level : Nat) : Except PyExn (ConvState × List Para) :=
  let level := if level ≥ ctx.maxNestingDepth then ctx.maxNestingDepth - 1 else level
  match ctx.listStyles .ordered (level + 1) with
  | some sty =>
    match sty.mode with
    | .numbering => handleNumItems ctx st .ordered level items
    | .pfx => handlePfxItems ctx st .ordered level items start
  | none =>
    let r := createNumbering st .ordered start
    fallbackItems ctx r.2 r.1 level items
termination_by (sizeOf items, 3)

/-- The item loop of _handle_prefix_list_elem (lines 2821-2882), threading
the item counter across all items. -/
def handlePfxItems (ctx : Ctx) (st : ConvState) (kind : ListKind) (level : Nat)
    (items : List (List Block)) (counter : Nat) : Except PyExn (ConvState × List Para) :=
  match items with
  | [] => .ok (st, [])
  | item :: rest =>
    match handlePfxItemBlocks ctx st kind level item counter with
    | .error e => .error e
    | .ok (st1, ps1, counter1) =>
      match handlePfxItems ctx st1 kind level rest counter1 with
      | .error e => .error e
      | .ok (st2, ps2) => .ok (st2, ps1 ++ ps2)
termination_by (sizeOf items, 2)

/-- The inner block loop of _handle_prefix_list_elem.  The final branch of
the code routes any other block through _process_blocks([block]), which for
the block variants of this model means emitting a header (and recording
that a block was emitted) or skipping an unknown block; that call is
inlined here. -/
def handlePfxItemBlocks (ctx : Ctx) (st : ConvState) (kind : ListKind) (level : Nat)
    (blocks : List Block) (counter : Nat) : Except PyExn (ConvState × List Para × Nat) :=
  match blocks with
  | [] => .ok (st, [], counter)
  | .para inls :: rest =>
    let sty := (ctx.listStyles kind (level + 1)).getD (defaultListStyle ctx)
    let pfxRuns := pfxRunsOf sty kind counter
    let r := processInlines ctx st inls sty.charPrIDRef ∅
    let para : Para := ⟨⟨sty.paraPrIDRef, ctx.normalStyleId, 0, 0⟩, pfxRuns ++ r.2⟩
    match handlePfxItemBlocks ctx r.1 kind level rest (counter + 1) with
    | .error e => .error e
    | .ok (st2, ps, c2) => .ok (st2, para :: ps, c2)
  | .plain inls :: rest =>
    let sty := (ctx.listStyles kind (level + 1)).getD (defaultListStyle ctx)
    let pfxRuns := pfxRunsOf sty kind counter
    let r := processInlines ctx st inls sty.charPrIDRef ∅
    let para : Para := ⟨⟨sty.paraPrIDRef, ctx.normalStyleId, 0, 0⟩, pfxRuns ++ r.2⟩
    match handlePfxItemBlocks ctx r.1 kind level rest (counter + 1) with
    | .error e => .error e
    | .ok (st2, ps, c2) => .ok (st2, para :: ps, c2)
  | .bulletList items2 :: rest =>
    match handleBulletList ctx st items2 (level + 1) with
    | .error e => .error e
    | .ok (st1, ps1) =>
      match handlePfxItemBlocks ctx st1 kind level rest counter with
      | .error e => .error e
      | .ok (st2, ps2, c2) => .ok (st2, ps1 ++ ps2, c2)
  | .orderedList s2 items2 :: rest =>
    match handleOrderedList ctx st s2 items2 (level + 1) with
    | .error e => .error e
    | .ok (st1, ps1) =>
      match handlePfxItemBlocks ctx st1 kind level rest counter with
      | .error e => .error e
      | .ok (st2, ps2, c2) => .ok (st2, ps1 ++ ps2, c2)
  | .header lvl hinls :: rest =>
    match handleHeader ctx st lvl hinls with
    | .error e => .error e
    | .ok (st1, p) =>
      let st2 := { st1 with hasEmittedBlock := true }
      match handlePfxItemBlocks ctx st2 kind level rest counter with
      | .error e => .error e
      | .ok (st3, ps, c3) => .ok (st3, p :: ps, c3)
  | .unknown :: rest =>
    handlePfxItemBlocks ctx st kind level rest counter
termination_by (sizeOf blocks, 1)

/-- The item loop of _handle_template_numbering_list_elem (lines
2884-2930): paragraphs use the template paragraph property directly. -/
def handleNumItems (ctx : Ctx) (st : ConvState) (kind : ListKind) (level : Nat)
    (items : List (List Block)) : Except PyExn (ConvState × List Para) :=
  match items with
  | [] => .ok (st, [])
  | item :: rest =>
    match handleNumItemBlocks ctx st kind level item with
    | .error e => .error e
    | .ok (st1, ps1) =>
      match handleNumItems ctx st1 kind level rest with
      | .error e => .error e
      | .ok (st2, ps2) => .ok (st2, ps1 ++ ps2)
termination_by (sizeOf items, 2)

/-- The inner block loop of _handle_template_numbering_list_elem, with the
same inlining of _process_blocks([block]) as above. -/
def handleNumItemBlocks (ctx : Ctx) (st : ConvState) (kind : ListKind) (level : Nat)
    (blocks : List Block) : Except PyExn (ConvState × List Para) :=
  match blocks with
  | [] => .ok (st, [])
  | .para inls :: rest =>
    let sty := (ctx.listStyles kind (level + 1)).getD (defaultListStyle ctx)
    let r := processInlines ctx st inls sty.charPrIDRef ∅
    let para : Para := ⟨⟨sty.paraPrIDRef, ctx.normalStyleId, 0, 0⟩, r.2⟩
    match handleNumItemBlocks ctx r.1 kind level rest with
    | .error e => .error e
    | .ok (st2, ps) => .ok (st2, para :: ps)
  | .plain inls :: rest =>
    let sty := (ctx.listStyles kind (level + 1)).getD (defaultListStyle ctx)
    let r := processInlines ctx st inls sty.charPrIDRef ∅
    let para : Para := ⟨⟨sty.paraPrIDRef, ctx.normalStyleId, 0, 0⟩, r.2⟩
    match handleNumItemBlocks ctx r.1 kind level rest with
    | .error e => .error e
    | .ok (st2, ps) => .ok (st2, para :: ps)
  | .bulletList items2 :: rest =>
    match handleBulletList ctx st items2 (level + 1) with
    | .error e => .error e
    | .ok (st1, ps1) =>
      match handleNumItemBlocks ctx st1 kind level rest with
      | .error e => .error e
      | .ok (st2, ps2) => .ok (st2, ps1 ++ ps2)
  | .orderedList s2 items2 :: rest =>
    match handleOrderedList ctx st s2 items2 (level + 1) with
    | .error e => .error e
    | .ok (st1, ps1) =>
      match handleNumItemBlocks ctx st1 kind level rest with
      | .error e => .error e
      | .ok (st2, ps2) => .ok (st2, ps1 ++ ps2)
  | .header lvl hinls :: rest =>
    match handleHeader ctx st lvl hinls with
    | .error e => .error e
    | .ok (st1, p) =>
      let st2 := { st1 with hasEmittedBlock := true }
      match handleNumItemBlocks ctx st2 kind level rest with
      | .error e => .error e
      | .ok (st3, ps) => .ok (st3, p :: ps)
  | .unknown :: rest =>
    handleNumItemBlocks ctx st kind level rest
termination_by (sizeOf blocks, 1)

/-- The fallback item loop shared verbatim by the bullet and ordered
handlers (lines 2711-2735 and 2770-2795): a fresh list paragraph property
is minted per block, paragraphs rely on HWPX numbering, and other blocks
are routed as above. -/
def fallbackItems (ctx : Ctx) (st : ConvState) (numId level : Nat)
    (items : List (List Block)) : Except PyExn (ConvState × List Para) :=
  match items with
  | [] => .ok (st, [])
  | item :: rest =>
    match fallbackItemBlocks ctx st numId level item with
    | .error e => .error e
    | .ok (st1, ps1) =>
      match fallbackItems ctx st1 numId level rest with
      | .error e => .error e
      | .ok (st2, ps2) => .ok (st2, ps1 ++ ps2)
termination_by (sizeOf items, 2)

/-- The inner block loop of the fallback list handlers. -/
def fallbackItemBlocks (ctx : Ctx) (st : ConvState) (numId level : Nat)
    (blocks : List Block) : Except PyExn (ConvState × List Para) :=
  match blocks with
  | [] => .ok (st, [])
  | .para inls :: rest =>
    let r0 := getListParaPr st numId level
    let r := processInlines ctx r0.2 inls 0 ∅
    let para : Para := ⟨⟨r0.1, ctx.normalStyleId, 0, 0⟩, r.2⟩
    match fallbackItemBlocks ctx r.1 numId level rest with
    | .error e => .error e
    | .ok (st2, ps) => .ok (st2, para :: ps)
  | .plain inls :: rest =>
    let r0 := getListParaPr st numId level
    let r := processInlines ctx r0.2 inls 0 ∅
    let para : Para := ⟨⟨r0.1, ctx.normalStyleId, 0, 0⟩, r.2⟩
    match fallbackItemBlocks ctx r.1 numId level rest with
    | .error e => .error e
    | .ok (st2, ps) => .ok (st2, para :: ps)
  | .bulletList items2 :: rest =>
    let r0 := getListParaPr st numId level
    match handleBulletList ctx r0.2 items2 (level + 1) with
    | .error e => .error e
    | .ok (st1, ps1) =>
      match fallbackItemBlocks ctx st1 numId level rest with
      | .error e => .error e
      | .ok (st2, ps2) => .ok (st2, ps1 ++ ps2)
  | .orderedList s2 items2 :: rest =>
    let r0 := getListParaPr st numId level
    match handleOrderedList ctx r0.2 s2 items2 (level + 1) with
    | .error e => .error e
    | .ok (st1, ps1) =>
      match fallbackItemBlocks ctx st1 numId level rest with
      | .error e => .error e
      | .ok (st2, ps2) => .ok (st2, ps1 ++ ps2)
  | .header lvl hinls :: rest =>
    let r0 := getListParaPr st numId level
    match handleHeader ctx r0.2 lvl hinls with
    | .error e => .error e
    | .ok (st1, p) =>
      let st2 := { st1 with hasEmittedBlock := true }
      match fallbackItemBlocks ctx st2 numId level rest with
      | .error e => .error e
      | .ok (st3, ps) => .ok (st3, p :: ps)
  | .unknown :: rest =>
    let r0 := getListParaPr st numId level
    fallbackItemBlocks ctx r0.2 numId level rest
termination_by (sizeOf blocks, 1)

end

/-! ## Top-level block loop (_process_blocks, lines 1114-1153) and convert -/

/-- Dispatch of one block, returning the emitted chunk, or none for an
unknown block type (silently skipped by the code). -/
def handleBlockChunk (ctx : Ctx) (st : ConvState) :
    Block → Except PyExn (ConvState × Option (List Para))
  | .para inls =>
    let r := handleTextBlock ctx st inls
    .ok (r.1, some [r.2])
  | .plain inls =>
    let r := handleTextBlock ctx st inls
    .ok (r.1, some [r.2])
  | .header lvl inls =>
    match handleHeader ctx st lvl inls with
    | .error e => .error e
    | .ok (st1, p) => .ok (st1, some [p])
  | .bulletList items =>
    match handleBulletList ctx st items 0 with
    | .error e => .error e
    | .ok (st1, ps) => .ok (st1, some ps)
  | .orderedList s items =>
    match handleOrderedList ctx st s items 0 with
    | .error e => .error e
    | .ok (st1, ps) => .ok (st1, some ps)
  | .unknown => .ok (st, none)

/-- Transcription of the _process_blocks loop: recognized blocks append
their chunk to the result (even an empty one), and after every iteration
the emitted-block flag is set when the result list is nonempty, which the
resNonempty accumulator tracks. -/
def processBlocksAux (ctx : Ctx) (st : ConvState) (bs : List Block)
    (resNonempty : Bool) : Except PyExn (ConvState × List (List Para)) :=
  match bs with
  | [] => .ok (st, [])
  | b :: rest =>
    match handleBlockChunk ctx st b with
    | .error e => .error e
    | .ok (st1, some chunk) =>
      let st2 := { st1 with hasEmittedBlock := true }
      match processBlocksAux ctx st2 rest true with
      | .error e => .error e
      | .ok (st3, chunks) => .ok (st3, chunk :: chunks)
    | .ok (st1, none) =>
      let st2 := if resNonempty then { st1 with hasEmittedBlock := true } else st1
      processBlocksAux ctx st2 rest resNonempty

/-- _process_blocks entered with an empty result list. -/
def processBlocks (ctx : Ctx) (st : ConvState) (bs : List Block) :
    Except PyExn (ConvState × List (List Para)) :=
  processBlocksAux ctx st bs false

/-- The serialized header collections with their itemCnt attributes, as
written by convert (lines 1084-1110). -/
structure FinalHeader where
  charPrs : List CharPrNode
  charItemCnt : String
  paraPrs : List Nat
  paraItemCnt : String
  numberings : List Nat
  numItemCnt : String
  borderFills : List Nat
  bfItemCnt : String

/-- The itemCnt finalization of convert lines 1084-1110: each collection
attribute is set to the count of its children at serialization time. -/
def finalizeHeader (st : ConvState) : FinalHeader :=
  { charPrs := st.reg.charPrs,
    charItemCnt := toString st.reg.charPrs.length,
    paraPrs := st.paraPrs,
    paraItemCnt := toString st.paraPrs.length,
    numberings := st.numberings,
    numItemCnt := toString st.numberings.length,
    borderFills := st.borderFills,
    bfItemCnt := toString st.borderFills.length }

/-- Transcription of convert (lines 1061-1112): process the blocks, then
unconditionally finalize the itemCnt attributes and serialize the header.
The page-setup injection into the first run (lines 1066-1078) rewrites the
body string only and is elided; no claim depends on it. -/
def convert (ctx : Ctx) (st0 : ConvState) (blocks : List Block) :
    Except PyExn (List (List Para) × FinalHeader) :=
  match processBlocks ctx st0 blocks with
  | .error e => .error e
  | .ok (st, chunks) => .ok (chunks, finalizeHeader st)

/-- A minimal template context for concrete runs: no placeholders, outline
styles present, default configuration (PAGE_BREAK_BEFORE_H1 on). -/
def ctxW : Ctx :=
  { placeholderH := fun _ => none, bodyPh := none, listStyles := fun _ _ => none,
    hasDynamicStyle := fun _ => true, outlineStyleIds := fun _ => none,
    styleById := fun _ => none, normalStyleId := 0, normalParaPrId := 1,
    normalCharPrId := 0, pageBreakBeforeH1 := true, maxNestingDepth := 20,
    maxImageCount := 500, tempDir := "/tmp", inputDir := none }

/-- The converter state at the start of a conversion over regW. -/
def stW : ConvState :=
  { reg := regW, maxParaPrId := 1, paraPrs := [1], numberings := [], borderFills := [2],
    images := [], hasEmittedBlock := false, headerCounters := [], freshTick := 0,
    lastFieldId := 0 }

/-! ## Claim C10: Strikeout -/

/-- Claim C10.  A Strikeout inline has no branch in
_process_inlines_to_elems: wherever it appears it contributes no run and no
state change (its children are never emitted, not even as plain text runs),
while _get_plain_text does include the Strikeout children. -/
theorem c10_strikeout_dropped (ctx : Ctx) (st : ConvState) (xs ys c : List Inline)
    (base : Nat) (fmts : Finset Fmt) :
    processInlines ctx st (xs ++ Inline.strikeout c :: ys) base fmts
      = processInlines ctx st (xs ++ ys) base fmts ∧
    getPlainText (Inline.strikeout c :: ys) = getPlainText c ++ getPlainText ys := by
  constructor
  · induction xs generalizing st with
    | nil =>
      simp only [List.nil_append]
      rw [processInlines]
    | cons i rest ih =>
      cases i <;> simp only [List.cons_append, processInlines, ih]
  · rw [getPlainText]

/-- Witness for C10 at a concrete document: bold text around a struck
fragment emits exactly the runs of the document without the fragment. -/
theorem c10_strikeout_dropped_witness :
    processInlines ctxW stW
        ([Inline.str "a"] ++ Inline.strikeout [Inline.str "gone"] :: [Inline.str "b"]) 0 ∅
      = processInlines ctxW stW ([Inline.str "a"] ++ [Inline.str "b"]) 0 ∅ ∧
    getPlainText (Inline.strikeout [Inline.str "gone"] :: [Inline.str "b"])
      = getPlainText [Inline.str "gone"] ++ getPlainText [Inline.str "b"] :=
  c10_strikeout_dropped ctxW stW [Inline.str "a"] [Inline.str "b"]
    [Inline.str "gone"] 0 ∅

/-! ## Claim C9: page break before H1 -/

/-- Every paragraph emitted by _handle_header carries the pageBreak value
computed at entry: 1 exactly when the level is 1, a block has been emitted,
and PAGE_BREAK_BEFORE_H1 is on. -/
lemma handleHeader_pageBreak (ctx : Ctx) (st st' : ConvState) (level : Nat)
    (inls : List Inline) (p : Para)
    (h : handleHeader ctx st level inls = .ok (st', p)) :
    p.attrs.pageBreak
      = (if level = 1 ∧ st.hasEmittedBlock ∧ ctx.pageBreakBeforeH1 then 1 else 0) := by
  unfold handleHeader at h
  simp only [handleHeaderInTable, handleHeaderStyled] at h
  repeat' split at h
  all_goals first
    | exact Except.noConfusion h
    | (have hq := congrArg
        (fun x : Except PyExn (ConvState × Para) =>
          match x with
          | .ok r => r.2.attrs.pageBreak
          | .error _ => 0) h
       simp only at hq
       rw [← hq]
       simp [*])

/-- Claim C9.  With PAGE_BREAK_BEFORE_H1 enabled, a level-1 header is
emitted with pageBreak 1 exactly when some block was already emitted; text
blocks always carry pageBreak 0; and on the concrete document of one
paragraph followed by an H1, the paragraph is emitted with pageBreak 0 and
the H1 with pageBreak 1, while an H1 that is the first block gets 0. -/
theorem c9_page_break_before_h1 :
    (∀ (ctx : Ctx) (st st' : ConvState) (inls : List Inline) (p : Para),
      ctx.pageBreakBeforeH1 = true →
      handleHeader ctx st 1 inls = .ok (st', p) →
      (p.attrs.pageBreak = 1 ↔ st.hasEmittedBlock = true)) ∧
    (∀ (ctx : Ctx) (st : ConvState) (inls : List Inline),
      (handleTextBlock ctx st inls).2.attrs.pageBreak = 0) ∧
    ((processBlocks ctxW stW [.para [.str "para"], .header 1 [.str "Title"]]).map
        (fun r => r.2.map (fun ch => ch.map (fun p => p.attrs.pageBreak)))
      = .ok [[0], [1]]) ∧
    ((processBlocks ctxW stW [.header 1 [.str "Title"]]).map
        (fun r => r.2.map (fun ch => ch.map (fun p => p.attrs.pageBreak)))
      = .ok [[0]]) := by
  refine ⟨?_, ?_, ?_, ?_⟩
  · intro ctx st st' inls p hcfg h
    rw [handleHeader_pageBreak ctx st st' 1 inls p h]
    cases he : st.hasEmittedBlock <;> simp [hcfg, he]
  · intro ctx st inls
    simp [handleTextBlock]
  · simp [processBlocks, processBlocksAux, handleBlockChunk, handleTextBlock, handleHeader,
      processInlines, getCharPrIdSt, deriveCharPr, ctxW, stW, regW, Except.map]
  · simp [processBlocks, processBlocksAux, handleBlockChunk, handleTextBlock, handleHeader,
      processInlines, getCharPrIdSt, deriveCharPr, ctxW, stW, regW, Except.map]

/-- Witness for C9 at the concrete H1-after-paragraph state. -/
theorem c9_page_break_before_h1_witness :
    ∃ st' p, handleHeader ctxW { stW with hasEmittedBlock := true } 1 [.str "T"]
        = .ok (st', p) ∧ p.attrs.pageBreak = 1 := by
  have h := c9_page_break_before_h1.1 ctxW { stW with hasEmittedBlock := true }
  cases hh : handleHeader ctxW { stW with hasEmittedBlock := true } 1 [.str "T"] with
  | error e =>
    exact absurd hh (by
      simp [handleHeader, processInlines, getCharPrIdSt, deriveCharPr, ctxW, stW, regW])
  | ok r =>
    obtain ⟨st2, p2⟩ := r
    exact ⟨st2, p2, rfl, (h st2 [.str "T"] p2 rfl hh).mpr rfl⟩

/-! ## Claim C8: prefix-mode lists -/

/-- A prefix-mode ordered list style with template prefix "1. ". -/
def sty8 : ListStyleInfo := ⟨5, 7, .pfx, some "1. ", none⟩

/-- The template context holding the ordered level-1 list placeholder. -/
def ctx8 : Ctx :=
  { ctxW with
    listStyles := fun k l =>
      if k = .ordered ∧ l = 1 then some sty8 else none }

/-- The three-item ordered list 1. a, 2. b, 3. c. -/
def items8 : List (List Block) :=
  [[.plain [.str "a"]], [.plain [.str "b"]], [.plain [.str "c"]]]

/-- Specification of the prefix-list item loop on items that are single
paragraphs: one output paragraph per item, each carrying the template
paragraph property, opening with the counter-formatted prefix runs for the
counter value startNum plus the item index. -/
lemma pfxItems_spec (ctx : Ctx) (kind : ListKind) (level : Nat) (sty : ListStyleInfo)
    (hsty : ctx.listStyles kind (level + 1) = some sty) :
    ∀ (items : List (List Block)) (st : ConvState) (counter : Nat),
      (∀ it ∈ items, ∃ inls, it = [Block.para inls] ∨ it = [Block.plain inls]) →
      ∃ st' paras, handlePfxItems ctx st kind level items counter = .ok (st', paras) ∧
        paras.length = items.length ∧
        ∀ i (hi : i < paras.length),
          (paras.get ⟨i, hi⟩).attrs = ⟨sty.paraPrIDRef, ctx.normalStyleId, 0, 0⟩ ∧
          ∃ contentRuns, (paras.get ⟨i, hi⟩).runs
            = pfxRunsOf sty kind (counter + i) ++ contentRuns := by
  intro items
  induction items with
  | nil =>
    intro st counter _
    refine ⟨st, [], ?_, rfl, ?_⟩
    · rw [handlePfxItems]
    · intro i hi
      exact absurd hi (by simp)
  | cons item rest ih =>
    intro st counter hitems
    obtain ⟨inls, hitem⟩ := hitems item (List.mem_cons_self _ _)
    have hgetD : (ctx.listStyles kind (level + 1)).getD (defaultListStyle ctx) = sty := by
      rw [hsty]
      rfl
    have hone : ∀ (stx : ConvState),
        handlePfxItemBlocks ctx stx kind level item counter
          = .ok ((processInlines ctx stx inls sty.charPrIDRef ∅).1,
                 [⟨⟨sty.paraPrIDRef, ctx.normalStyleId, 0, 0⟩,
                   pfxRunsOf sty kind counter
                     ++ (processInlines ctx stx inls sty.charPrIDRef ∅).2⟩],
                 counter + 1) := by
      intro stx
      rcases hitem with h | h <;>
        · rw [h]
          rw [handlePfxItemBlocks]
          rw [hgetD]
          rw [handlePfxItemBlocks]
    obtain ⟨st2, paras2, hrun2, hlen2, hspec2⟩ :=
      ih (processInlines ctx st inls sty.charPrIDRef ∅).1 (counter + 1)
        (fun it hit => hitems it (List.mem_cons_of_mem _ hit))
    refine ⟨st2,
      ⟨⟨sty.paraPrIDRef, ctx.normalStyleId, 0, 0⟩,
        pfxRunsOf sty kind counter
          ++ (processInlines ctx st inls sty.charPrIDRef ∅).2⟩ :: paras2, ?_, ?_, ?_⟩
    · rw [handlePfxItems, hone st]
      simp [hrun2]
    · simpa using hlen2
    · intro i hi
      cases i with
      | zero =>
        refine ⟨rfl, (processInlines ctx st inls sty.charPrIDRef ∅).2, ?_⟩
        simp
      | succ j =>
        have hj : j < paras2.length := by
          simpa using hi
        have hsp := hspec2 j hj
        obtain ⟨cr, hcr⟩ := hsp.2
        refine ⟨hsp.1, cr, ?_⟩
        show (paras2.get ⟨j, hj⟩).runs = pfxRunsOf sty kind (counter + (j + 1)) ++ cr
        have harith : counter + (j + 1) = counter + 1 + j := by omega
        rw [harith]
        exact hcr

/-- Claim C8.  For a template list placeholder in prefix mode: the ordered
dispatcher routes to the prefix loop with the start value as initial
counter; over items that are single paragraphs the loop emits one paragraph
per item, with the template paraPrId and, as its first runs, the prefix run
for counter startNum plus item index; the prefix run carries the template
charPrId and the counter-formatted prefix text for ordered lists, and the
literal prefix for bullet lists; on the concrete scenario of three ordered
items with template prefix "1. " the emitted prefixes are "1. ", "2. ",
"3. ". -/
theorem c8_prefix_list (ctx : Ctx) (st : ConvState) (level startNum : Nat)
    (kind : ListKind) (sty : ListStyleInfo) (pre : String) (items : List (List Block))
    (hsty : ctx.listStyles kind (level + 1) = some sty)
    (hpre : sty.pfx = some pre)
    (hitems : ∀ it ∈ items, ∃ inls, it = [Block.para inls] ∨ it = [Block.plain inls]) :
    (sty.mode = .pfx → level < ctx.maxNestingDepth → kind = .ordered →
      handleOrderedList ctx st startNum items level
        = handlePfxItems ctx st .ordered level items startNum) ∧
    (∃ st' paras, handlePfxItems ctx st kind level items startNum = .ok (st', paras) ∧
      paras.length = items.length ∧
      ∀ i (hi : i < paras.length),
        (paras.get ⟨i, hi⟩).attrs = ⟨sty.paraPrIDRef, ctx.normalStyleId, 0, 0⟩ ∧
        ∃ contentRuns, (paras.get ⟨i, hi⟩).runs
          = pfxRunsOf sty kind (startNum + i) ++ contentRuns) ∧
    (∀ k, formatCounterText pre k ≠ "" →
      pfxRunsOf sty .ordered k = [Run.text sty.charPrIDRef (formatCounterText pre k)]) ∧
    (pre ≠ "" → ∀ k, pfxRunsOf sty .bullet k = [Run.text sty.charPrIDRef pre]) ∧
    ((handlePfxItems ctx8 stW .ordered 0 items8 1).map
        (fun r => r.2.map (fun p => p.runs))
      = .ok [[.text 5 "1. ", .text 5 "a"], [.text 5 "2. ", .text 5 "b"],
             [.text 5 "3. ", .text 5 "c"]]) := by
  refine ⟨?_, ?_, ?_, ?_, ?_⟩
  · intro hmode hlev hkind
    subst hkind
    unfold handleOrderedList
    simp only [if_neg (show ¬ level ≥ ctx.maxNestingDepth by omega), hsty, hmode]
  · exact pfxItems_spec ctx kind level sty hsty items st startNum hitems
  · intro k hk
    unfold pfxRunsOf formatListPfx
    rw [hpre]
    simp [hk]
  · intro hne k
    unfold pfxRunsOf formatListPfx
    rw [hpre]
    simp [hne]
  · simp [handlePfxItems, handlePfxItemBlocks, ctx8, sty8, items8, defaultListStyle,
      pfxRunsOf, formatListPfx, formatCounterText, pyStrip, romanUpper, romanLower,
      subFirstDigits, processInlines, getCharPrIdSt, deriveCharPr, stW, regW, Except.map]
    decide

/-- Witness for C8: the theorem applied to the concrete three-item ordered
scenario with template prefix "1. ". -/
theorem c8_prefix_list_witness :
    ∃ st' paras, handlePfxItems ctx8 stW .ordered 0 items8 1 = .ok (st', paras) ∧
      paras.length = items8.length ∧
      ∀ i (hi : i < paras.length),
        (paras.get ⟨i, hi⟩).attrs = ⟨(sty8).paraPrIDRef, ctx8.normalStyleId, 0, 0⟩ ∧
        ∃ contentRuns, (paras.get ⟨i, hi⟩).runs
          = pfxRunsOf sty8 .ordered (1 + i) ++ contentRuns :=
  (c8_prefix_list ctx8 stW 0 1 .ordered sty8 "1. " items8 rfl rfl
    (by
      intro it h
      fin_cases h
      · exact ⟨[.str "a"], Or.inr rfl⟩
      · exact ⟨[.str "b"], Or.inr rfl⟩
      · exact ⟨[.str "c"], Or.inr rfl⟩)).2.1

/-! ## Claim C2: itemCnt finalization -/

/-- Claim C2.  Whenever convert returns, each itemCnt attribute on the four
serialized header collections equals the count of that collection's
children, including every node minted during emission: finalization runs
unconditionally after block processing. -/
theorem c2_itemcnt_finalized (ctx : Ctx) (st0 : ConvState) (blocks : List Block)
    (body : List (List Para)) (hdr : FinalHeader)
    (h : convert ctx st0 blocks = .ok (body, hdr)) :
    hdr.charItemCnt = toString hdr.charPrs.length ∧
    hdr.paraItemCnt = toString hdr.paraPrs.length ∧
    hdr.numItemCnt = toString hdr.numberings.length ∧
    hdr.bfItemCnt = toString hdr.borderFills.length := by
  unfold convert at h
  cases hp : processBlocks ctx st0 blocks with
  | error e =>
    rw [hp] at h
    exact absurd h (by simp)
  | ok r =>
    rw [hp] at h
    have hh := congrArg Prod.snd (Except.ok.inj h)
    simp only at hh
    rw [← hh]
    exact ⟨rfl, rfl, rfl, rfl⟩

/-- Witness for C2 on a document whose bold text mints a new charPr node
during emission. -/
theorem c2_itemcnt_finalized_witness :
    ∃ body hdr, convert ctxW stW [Block.para [.strong [.str "x"]]] = .ok (body, hdr) ∧
      hdr.charItemCnt = toString hdr.charPrs.length ∧
      hdr.numItemCnt = toString hdr.numberings.length := by
  cases hc : convert ctxW stW [Block.para [.strong [.str "x"]]] with
  | error e =>
    exact absurd hc (by
      simp [convert, processBlocks, processBlocksAux, handleBlockChunk, handleTextBlock,
        processInlines, getCharPrIdSt, deriveCharPr, lookupCache, findCharPr, ctxW, stW, regW])
  | ok r =>
    obtain ⟨body, hdr⟩ := r
    have h := c2_itemcnt_finalized ctxW stW [Block.para [.strong [.str "x"]]] body hdr hc
    exact ⟨body, hdr, rfl, h.1, h.2.2.1⟩

/-! ## Claim C6: image path rejection -/

/-- Counterexample for C6: the URL a/../b.png contains a dot-dot segment,
but normalization removes it before the check, so validation passes, the
image is recorded, and a picture run (not a placeholder) is emitted. -/
theorem c6_counterexample :
    validateImagePath "a/../b.png" none = .ok () ∧
    (handleImageElem ctxW stW "a/../b.png" 0).1.images.length = 1 ∧
    (handleImageElem ctxW stW "a/../b.png" 0).2 = .pic 0 "img_0" := by
  refine ⟨by decide, by decide, by decide⟩

/-- Claim C6 as amended: when the URL is not an internal temp path and is
absolute, or its normalized form still contains a dot-dot segment, the
emitter does not abort: it returns a placeholder text run and leaves the
state (in particular the recorded image list) unchanged, so no manifest
item and no BinData blob is created for it. -/
theorem c6_image_rejection_amended (ctx : Ctx) (st : ConvState) (url : String) (cid : Nat)
    (hnt : ¬ (posixIsAbs url = true ∧ pyStartsWith url ctx.tempDir = true))
    (hbad : posixIsAbs url = true ∨
      (splitSlash (pyReplaceStr (posixNormpath url) "\\" "/")).contains ".." = true) :
    handleImageElem ctx st url cid = (st, .text cid ("[Image: " ++ url ++ "]")) := by
  have hTemp : (posixIsAbs url && pyStartsWith url ctx.tempDir) = false := by
    cases h1 : posixIsAbs url <;> cases h2 : pyStartsWith url ctx.tempDir <;> simp_all
  have hval : ∃ m, validateImagePath url ctx.inputDir = .error (.securityError m) := by
    unfold validateImagePath
    by_cases h1 : posixIsAbs url = true
    · rw [if_pos h1]
      exact ⟨_, rfl⟩
    · rcases hbad with h | h
      · exact absurd h h1
      · rw [if_neg h1]
        rw [if_pos (by simpa using h)]
        exact ⟨_, rfl⟩
  obtain ⟨m, hm⟩ := hval
  unfold handleImageElem
  simp [hTemp, hm]

/-- Witness for C6: the amended theorem applied to the traversal URL
../x.png, whose normalized form keeps the dot-dot segment. -/
theorem c6_image_rejection_witness :
    handleImageElem ctxW stW "../x.png" 3
      = (stW, .text 3 ("[Image: " ++ "../x.png" ++ "]")) :=
  c6_image_rejection_amended ctxW stW "../x.png" 3 (by decide) (Or.inr (by decide))

/-! ## Container writer (_write_hwpx_output, lines 247-292) -/

/-- One entry of a ZIP archive; content stands for the raw bytes. -/
structure ZipEntry where
  name : String
  content : String
deriving DecidableEq, Repr

/-- Index scan for the first occurrence of pat. -/
def findSubAux (pat : List Char) : List Char → Nat → Option Nat
  | [], i => if pat = [] then some i else none
  | c :: rest, i =>
    if pat.isPrefixOf (c :: rest) then some i
    else findSubAux pat rest (i + 1)

/-- Python str.find: first index of pat, or -1. -/
def pyFind (hay pat : List Char) : Int :=
  match findSubAux pat hay 0 with
  | some i => (i : Int)
  | none => -1

/-- Python str.find with a start argument (negative start counts from the
end, clamped at 0). -/
def pyFindFrom (hay pat : List Char) (start : Int) : Int :=
  let s : Nat := if start < 0 then (hay.length + start).toNat else start.toNat
  match findSubAux pat (hay.drop s) 0 with
  | some i => (s + i : Nat)
  | none => -1

/-- Index scan keeping the last occurrence of pat. -/
def findLastAux (pat : List Char) : List Char → Nat → Option Nat → Option Nat
  | [], _, best => best
  | c :: rest, i, best =>
    findLastAux pat rest (i + 1)
      (if pat.isPrefixOf (c :: rest) then some i else best)

/-- Python str.rfind: last index of pat, or -1 (pat nonempty here). -/
def pyRFind (hay pat : List Char) : Int :=
  match findLastAux pat hay 0 none with
  | some i => (i : Int)
  | none => -1

/-- Transcription of _write_section0 (lines 355-381): the reference
section0 is split at the end of the opening hs:sec tag (augmented with the
core and paragraph namespace declarations when missing) and at the final
closing tag, and the emitted body is spliced between. -/
def writeSection0Content (orig body : String) : String :=
  let o := orig.data
  let secStart := pyFind o "<hs:sec".data
  let tagClose := pyFindFrom o ['>'] secStart
  let pfx0 := o.take (tagClose + 1).toNat
  let pfx1 :=
    if pyFind pfx0 "xmlns:hc=".data = -1 then
      pfx0.dropLast ++ (" xmlns:hc=\"http://www.hancom.co.kr/hwpml/2011/core\">").data
    else pfx0
  let pfx2 :=
    if pyFind pfx1 "xmlns:hp=".data = -1 then
      pfx1.dropLast ++ (" xmlns:hp=\"http://www.hancom.co.kr/hwpml/2011/paragraph\">").data
    else pfx1
  let secEnd := pyRFind o "</hs:sec>".data
  let suffix := if secEnd ≠ -1 then o.drop secEnd.toNat else []
  ⟨pfx2⟩ ++ "\n" ++ body ++ "\n" ++ ⟨suffix⟩

/-- Media type by extension (lines 406-410). -/
def mimeOf (ext : String) : String :=
  if ext = "jpg" then "image/jpeg"
  else if ext = "gif" then "image/gif"
  else "image/png"

/-- One manifest item entry (line 411). -/
def manifestItem (img : ImageRec) : String :=
  "<opf:item id=\"" ++ img.id ++ "\" href=\"BinData/" ++ img.id ++ "." ++ img.ext
    ++ "\" media-type=\"" ++ mimeOf img.ext ++ "\" isEmbeded=\"1\"/>"

/-- The title substitution of line 398: every opf:title element body is
replaced (re.sub replaces all non-overlapping matches; the model lets a
match span newlines, which the non-DOTALL regex of the code would not). -/
def replaceTitleGo (t : List Char) : Nat → List Char → List Char
  | 0, s => s
  | fuel + 1, s =>
    let i := pyFind s "<opf:title>".data
    if i = -1 then s
    else
      let after := s.drop (i.toNat + 11)
      let j := pyFind after "</opf:title>".data
      if j = -1 then s
      else
        s.take i.toNat ++ "<opf:title>".data ++ t ++ "</opf:title>".data
          ++ replaceTitleGo t fuel (after.drop (j.toNat + 12))

/-- Transcription of _write_manifest (lines 383-418): substitute the title
when truthy, then insert one manifest item per embedded image before the
closing manifest tag. -/
def writeManifestContent (orig : String) (images : List ImageRec) (title : Option String) :
    String :=
  let s1 :=
    match title with
    | some t => if t ≠ "" then replaceTitleGo t.data orig.data.length orig.data else orig.data
    | none => orig.data
  let s2 :=
    if images ≠ [] then
      let items := joinSep "\n" (images.map manifestItem)
      let pos := pyFind s1 "</opf:manifest>".data
      if pos ≠ -1 then
        s1.take pos.toNat ++ (items ++ "\n").data ++ s1.drop pos.toNat
      else s1
    else s1
  ⟨s2⟩

/-- The archive entry name of an embedded image. -/
def binDataName (img : ImageRec) : String := "BinData/" ++ (img.id ++ "." ++ img.ext)

/-- First readable candidate (os.path.exists followed by reading, or the
input ZIP namelist followed by read, modelled by a lookup function). -/
def firstExisting (fs : String → Option String) : List String → Option String
  | [] => none
  | c :: rest =>
    match fs c with
    | some d => some d
    | none => firstExisting fs rest

/-- Transcription of _embed_images (lines 294-353) for one image: try the
path as given and relative to the input directory (for local inputs), then
the input-ZIP candidates; a missing image is logged and skipped. -/
def embedOne (fs : String → Option String) (inputDir : Option String)
    (inputZip : Option (String → Option String)) (img : ImageRec) : Option ZipEntry :=
  let cands := [img.path] ++
    (match inputDir with
     | some d => [posixJoin d img.path]
     | none => [])
  match firstExisting fs cands with
  | some data => some ⟨binDataName img, data⟩
  | none =>
    match inputZip with
    | some z =>
      match firstExisting z
        [img.path, "word/" ++ img.path, pyReplaceStr img.path "media/" "word/media/"] with
      | some data => some ⟨binDataName img, data⟩
      | none => none
    | none => none

/-- All embedded image entries, in image order. -/
def embedImages (fs : String → Option String) (inputDir : Option String)
    (inputZip : Option (String → Option String)) (images : List ImageRec) : List ZipEntry :=
  images.filterMap (embedOne fs inputDir inputZip)

/-- The per-entry routing of _write_hwpx_output lines 273-286: section0 is
respliced, the header replaced when a mutated header exists, the manifest
patched, and every other entry copied verbatim. -/
def transformEntry (xmlBody newHeaderXml : String) (images : List ImageRec)
    (title : Option String) (e : ZipEntry) : ZipEntry :=
  if e.name = "Contents/section0.xml" then ⟨e.name, writeSection0Content e.content xmlBody⟩
  else if e.name = "Contents/header.xml" then
    (if newHeaderXml ≠ "" then ⟨e.name, newHeaderXml⟩ else e)
  else if e.name = "Contents/content.hpf" then
    ⟨e.name, writeManifestContent e.content images title⟩
  else e

/-- Transcription of _write_hwpx_output (lines 247-292): the embedded
images are written first, then every reference entry in order, transformed
per name. -/
def writeHwpxOutput (ref : List ZipEntry) (xmlBody newHeaderXml : String)
    (images : List ImageRec) (title : Option String) (fs : String → Option String)
    (inputDir : Option String) (inputZip : Option (String → Option String)) :
    List ZipEntry :=
  embedImages fs inputDir inputZip images
    ++ ref.map (transformEntry xmlBody newHeaderXml images title)

lemma transformEntry_name (xmlBody newHeaderXml : String) (images : List ImageRec)
    (title : Option String) (e : ZipEntry) :
    (transformEntry xmlBody newHeaderXml images title e).name = e.name := by
  unfold transformEntry
  repeat' split
  all_goals rfl

/-- Claim C3.  Every reference entry other than Contents/section0.xml,
Contents/header.xml and Contents/content.hpf appears byte-identical in the
output archive, and every output entry either shares its name with a
reference entry or is an added BinData blob. -/
theorem c3_zip_preservation (ref : List ZipEntry) (xmlBody newHeaderXml : String)
    (images : List ImageRec) (title : Option String) (fs : String → Option String)
    (inputDir : Option String) (inputZip : Option (String → Option String)) :
    (∀ e ∈ ref, e.name ≠ "Contents/section0.xml" → e.name ≠ "Contents/header.xml" →
      e.name ≠ "Contents/content.hpf" →
      e ∈ writeHwpxOutput ref xmlBody newHeaderXml images title fs inputDir inputZip) ∧
    (∀ e ∈ writeHwpxOutput ref xmlBody newHeaderXml images title fs inputDir inputZip,
      (∃ e0 ∈ ref, e0.name = e.name) ∨ ∃ suffix, e.name = "BinData/" ++ suffix) := by
  constructor
  · intro e he h1 h2 h3
    have ht : transformEntry xmlBody newHeaderXml images title e = e := by
      unfold transformEntry
      rw [if_neg h1, if_neg h2, if_neg h3]
    unfold writeHwpxOutput
    refine List.mem_append_right _ ?_
    have := List.mem_map_of_mem (transformEntry xmlBody newHeaderXml images title) he
    rwa [ht] at this
  · intro e he
    unfold writeHwpxOutput at he
    rcases List.mem_append.mp he with hL | hR
    · right
      obtain ⟨img, _, himg⟩ := List.mem_filterMap.mp hL
      refine ⟨img.id ++ "." ++ img.ext, ?_⟩
      unfold embedOne at himg
      dsimp only at himg
      repeat' split at himg
      all_goals first
        | exact Option.noConfusion himg
        | (rw [← Option.some.inj himg]; rfl)
    · left
      obtain ⟨e0, he0, ht⟩ := List.mem_map.mp hR
      exact ⟨e0, he0, by rw [← ht, transformEntry_name]⟩

/-- A small reference archive for the C3 witness. -/
def ref3 : List ZipEntry :=
  [⟨"mimetype", "application/hwp+zip"⟩,
   ⟨"Contents/header.xml", "HDR"⟩,
   ⟨"Contents/section0.xml", "SEC"⟩,
   ⟨"META-INF/container.xml", "CONTAINER"⟩]

/-- Witness for C3: the mimetype and container entries of a concrete
reference archive survive byte-identically. -/
theorem c3_zip_preservation_witness :
    (⟨"mimetype", "application/hwp+zip"⟩ : ZipEntry)
      ∈ writeHwpxOutput ref3 "B" "H2" [] none (fun _ => none) none none ∧
    (⟨"META-INF/container.xml", "CONTAINER"⟩ : ZipEntry)
      ∈ writeHwpxOutput ref3 "B" "H2" [] none (fun _ => none) none none :=
  ⟨(c3_zip_preservation ref3 "B" "H2" [] none (fun _ => none) none none).1
      ⟨"mimetype", "application/hwp+zip"⟩ (by decide) (by decide) (by decide) (by decide),
   (c3_zip_preservation ref3 "B" "H2" [] none (fun _ => none) none none).1
      ⟨"META-INF/container.xml", "CONTAINER"⟩ (by decide) (by decide) (by decide) (by decide)⟩

end MdHwpx
